import Mathlib

/-!
# Verification of the IBM Model 4 training core (`nltk/align/ibm4.py`)

A shallow embedding of the IBM Model 4 alignment-probability model and its
EM parameter estimation, translated from `src/nltk/align/ibm4.py`.

Conventions of the embedding:
* Python floats are modelled as exact rationals (`ℚ`).
* Words are natural-number ids; the NULL source token is `none` in an
  `Option`-valued source sentence, mirroring `[None] + mots`.
* Python `dict` lookups that can raise `KeyError` (the word-class tables)
  are modelled as association-list lookups returning `Option`; a raised
  exception propagates as `none` through `Option`-valued computations.
* `defaultdict`-backed probability tables are modelled extensionally as
  total functions together with the update patterns the code performs.
-/

namespace IBM4

/-- A word is identified by a natural-number id. -/
abbrev Word := ℕ

/-- Modelled from the spec: the probability floor `IBMModel.MIN_PROB` is
defined on the base model class, which is outside the sources here; the spec
describes it as the minimum representable probability substituted for zero.
The base implementation uses `1.0e-12`. -/
def MIN_PROB : ℚ := 1 / 1000000000000

/-- Python `pow` on rationals with an integer exponent.  `pow(b, e)` with
`b = 0` and `e < 0` raises `ZeroDivisionError`, modelled as `none`. -/
def zpowQ (b : ℚ) (e : ℤ) : Option ℚ :=
  if b = 0 ∧ e < 0 then none else some (b ^ e)

/-- Word-class lookup table (a Python `dict` mapping word to class id),
modelled as an association list; lookup of a missing word is `none`
(a raised `KeyError`). -/
abbrev WordClasses := List (Word × ℤ)

/-- Class of a source-sentence entry (which is `Option`-valued because the
NULL token occupies source position 0): fails if the entry is NULL or the
word has no class. -/
def wordClassOf (tbl : WordClasses) (ow : Option Word) : Option ℤ :=
  ow.bind fun w => tbl.lookup w

/-- Modelled from the spec: the `AlignmentInfo` candidate produced by the
external hill-climbing sampler (the class lives in the base-model module,
outside these sources).  It records one hypothesized alignment for one
sentence pair: `src_sentence` is `[None] + mots` (position 0 = NULL),
`trg_sentence` is `[dummy] + words` (1-indexed), and `alignment j` is the
source position that target position `j` is aligned to. -/
structure AlignmentInfo where
  src_sentence : List (Option Word)
  trg_sentence : List Word
  alignment : List ℕ

namespace AlignmentInfo

/-- Source position aligned to target position `j`. -/
def alignOf (ai : AlignmentInfo) (j : ℕ) : ℕ := ai.alignment.getD j 0

/-- The tablet of source position `i`: the ordered list of target positions
aligned to `i` (derived from the alignment, as in the base model). -/
def cepts (ai : AlignmentInfo) (i : ℕ) : List ℕ :=
  (List.range ai.trg_sentence.length).filter fun j => 1 ≤ j ∧ ai.alignOf j = i

/-- Fertility of source position `i` = size of its tablet. -/
def fertility_of_i (ai : AlignmentInfo) (i : ℕ) : ℕ := (ai.cepts i).length

/-- Whether target position `j` is the first word of its tablet. -/
def is_head_word (ai : AlignmentInfo) (j : ℕ) : Bool :=
  decide ((ai.cepts (ai.alignOf j)).head? = some j)

/-- Center of a cept: ceiling of the average of its tablet positions; `0`
when there is no cept (`none`). -/
def center_of_cept (ai : AlignmentInfo) : Option ℕ → ℤ
  | none => 0
  | some i => Int.ceil (((ai.cepts i).sum : ℚ) / ((ai.cepts i).length : ℚ))

/-- The countdown loop of `previous_cept`: starting at source position `k`,
walk left while the fertility is zero; `none` once position 0 is reached. -/
def prevCeptLoop (ai : AlignmentInfo) : ℕ → Option ℕ
  | 0 => none
  | k + 1 =>
    if ai.fertility_of_i (k + 1) = 0 then prevCeptLoop ai k else some (k + 1)

/-- The previous cept of target position `j`: the closest source position
left of `alignment j` with nonzero fertility, if any. -/
def previous_cept (ai : AlignmentInfo) (j : ℕ) : Option ℕ :=
  prevCeptLoop ai (ai.alignOf j - 1)

/-- The tablet position that immediately precedes `j` inside `j`'s tablet
(`cepts[i][cepts[i].index(j) - 1]`); only meaningful for non-head words. -/
def previous_in_tablet (ai : AlignmentInfo) (j : ℕ) : ℕ :=
  let tablet := ai.cepts (ai.alignOf j)
  tablet.getD (tablet.indexOf j - 1) 0

end AlignmentInfo

/-- The IBM Model 4 parameter set (the probability-table fields of the
Python `IBMModel4` object).  Tables are modelled extensionally as total
functions; `defaultdict` defaults are realized by `reset_probabilities`.
The `alignment_table` (indexed `[i][j][l][m]`) is inherited from the base
model and never re-estimated here. -/
structure Model where
  translation_table : Word → Option Word → ℚ
  fertility_table : ℕ → Option Word → ℚ
  p1 : ℚ
  head_distortion_table : ℤ → Option ℤ → ℤ → ℚ
  non_head_distortion_table : ℤ → ℤ → ℚ
  alignment_table : ℕ → ℕ → ℕ → ℕ → ℚ
  src_classes : WordClasses
  trg_classes : WordClasses

/-- The `p0` used by scoring, derived from `p1` (`p0 = 1 - p1` in
`null_generation_term`). -/
def scoring_p0 (md : Model) : ℚ := 1 - md.p1

/-- Modelled from the spec: `reset_probabilities` (base class plus the
Model-4 override) replaces every probability table by a fresh
floor-defaulted table; the base implementation also resets `p1` to `0.5`. -/
def reset_probabilities (md : Model) : Model :=
  { md with
    translation_table := fun _ _ => MIN_PROB
    fertility_table := fun _ _ => MIN_PROB
    p1 := 1 / 2
    head_distortion_table := fun _ _ _ => MIN_PROB
    non_head_distortion_table := fun _ _ => MIN_PROB
    alignment_table := fun _ _ _ _ => MIN_PROB }

/-- `get_unique_word_classes`: the set of class values of a word-class
table (a Python `set`, modelled as a deduplicated list). -/
def get_unique_word_classes (word_classes_table : WordClasses) : List ℤ :=
  (word_classes_table.map Prod.snd).dedup

/-- `longest_target_sentence_length` over a corpus of
(source words, target words) sentence pairs. -/
def longest_target_sentence_length (corpus : List (List Word × List Word)) : ℕ :=
  corpus.foldl (fun max_m pr => max max_m pr.2.length) 0

/-- The uniform initial distortion probability:
`1 / (2 * (max_m - 1))`, or the floor when `max_m ≤ 1`. -/
def uniform_distortion_prob (corpus : List (List Word × List Word)) : ℚ :=
  let max_m := longest_target_sentence_length corpus
  if max_m ≤ 1 then MIN_PROB else 1 / (2 * ((max_m : ℚ) - 1))

/-- The warning condition of `set_uniform_distortion_probabilities`: the
uniform value fell below the floor (a non-fatal `warnings.warn`). -/
def uniform_distortion_warns (corpus : List (List Word × List Word)) : Prop :=
  uniform_distortion_prob corpus < MIN_PROB

/-- `set_uniform_distortion_probabilities`: writes the uniform probability
at every displacement `dj` with `1 ≤ |dj| ≤ max_m - 1` and every
class combination drawn from the model's word-class tables, into both
distortion tables; all other entries keep their current values. -/
def set_uniform_distortion_probabilities (md : Model)
    (corpus : List (List Word × List Word)) : Model :=
  let max_m := longest_target_sentence_length corpus
  let initial_prob := uniform_distortion_prob corpus
  { md with
    head_distortion_table := fun dj s_cls t_cls =>
      match s_cls with
      | some c =>
        if dj ≠ 0 ∧ dj.natAbs < max_m ∧ c ∈ get_unique_word_classes md.src_classes ∧
            t_cls ∈ get_unique_word_classes md.trg_classes
        then initial_prob else md.head_distortion_table dj (some c) t_cls
      | none => md.head_distortion_table dj none t_cls
    non_head_distortion_table := fun dj t_cls =>
      if dj ≠ 0 ∧ dj.natAbs < max_m ∧ t_cls ∈ get_unique_word_classes md.trg_classes
      then initial_prob else md.non_head_distortion_table dj t_cls }

/-- `null_generation_term`: binomial null-generation factor
`p1^phi0 * p0^(m - 2*phi0)` times the incrementally computed combination
`(m - phi0) choose phi0`; returns the floor early when the power part is
already below the floor. -/
def null_generation_term (md : Model) (ai : AlignmentInfo) : Option ℚ :=
  let p1 := md.p1
  let p0 := scoring_p0 md
  let null_fertility := ai.fertility_of_i 0
  let m : ℤ := (ai.trg_sentence.length : ℤ) - 1
  do
    let powp0 ← zpowQ p0 (m - 2 * null_fertility)
    let value := 1 * (p1 ^ null_fertility * powp0)
    if value < MIN_PROB then pure MIN_PROB
    else
      pure ((List.range' 1 null_fertility).foldl
        (fun v (i : ℕ) => v * (((m : ℚ) - (null_fertility : ℚ) - (i : ℚ) + 1) / (i : ℚ)))
        value)

/-- The loop body of `fertility_term`: multiply
`factorial(fertility) * fertility_table[fertility][src_sentence[i]]`
for each remaining source position, returning the floor early when the
running value falls below it. -/
def fertility_loop (md : Model) (ai : AlignmentInfo) : List ℕ → ℚ → ℚ
  | [], value => value
  | i :: is, value =>
    let fertility := ai.fertility_of_i i
    let value := value *
      ((Nat.factorial fertility : ℚ) * md.fertility_table fertility (ai.src_sentence.getD i none))
    if value < MIN_PROB then MIN_PROB else fertility_loop md ai is value

/-- `fertility_term`: product over the real source positions `1 .. l`. -/
def fertility_term (md : Model) (ai : AlignmentInfo) : ℚ :=
  fertility_loop md ai (List.range' 1 (ai.src_sentence.length - 1)) 1

/-- `lexical_translation_term(j) = translation_table[t][s]`. -/
def lexical_translation_term (md : Model) (ai : AlignmentInfo) (j : ℕ) : ℚ :=
  md.translation_table (ai.trg_sentence.getD j 0)
    (ai.src_sentence.getD (ai.alignOf j) none)

/-- `distortion_term(j)`: 1 for NULL-aligned positions; the head-distortion
table entry for tablet heads (keyed by the displacement from the previous
cept's center, the class of the previous cept's word or `none`, and the
class of the target word); the non-head table entry otherwise.  Word-class
lookups are `dict` accesses and may fail (`none`). -/
def distortion_term (md : Model) (ai : AlignmentInfo) (j : ℕ) : Option ℚ :=
  let t := ai.trg_sentence.getD j 0
  let i := ai.alignOf j
  if i = 0 then some 1
  else if ai.is_head_word j then
    do
      let src_class : Option ℤ ←
        (match ai.previous_cept j with
         | some previous_cept =>
           (wordClassOf md.src_classes (ai.src_sentence.getD previous_cept none)).map some
         | none => some none)
      let trg_class ← md.trg_classes.lookup t
      let dj : ℤ := (j : ℤ) - ai.center_of_cept (ai.previous_cept j)
      pure (md.head_distortion_table dj src_class trg_class)
  else
    do
      let trg_class ← md.trg_classes.lookup t
      let dj : ℤ := (j : ℤ) - (ai.previous_in_tablet j : ℤ)
      pure (md.non_head_distortion_table dj trg_class)

/-- The `for j in range(1, len(trg_sentence))` loop of `prob_t_a_given_s`:
multiply in the lexical then the distortion factor for each position,
returning the floor as soon as the running product falls below it. -/
def score_positions (md : Model) (ai : AlignmentInfo) : List ℕ → ℚ → Option ℚ
  | [], probability => some probability
  | j :: js, probability =>
    let probability := probability * lexical_translation_term md ai j
    if probability < MIN_PROB then some MIN_PROB
    else do
      let d ← distortion_term md ai j
      let probability := probability * d
      if probability < MIN_PROB then some MIN_PROB
      else score_positions md ai js probability

/-- `prob_t_a_given_s`: probability of the target sentence and alignment
given the source sentence, with early aborts once the running product
falls below `MIN_PROB`. -/
def prob_t_a_given_s (md : Model) (ai : AlignmentInfo) : Option ℚ := do
  let ngt ← null_generation_term md ai
  let probability := 1 * ngt
  if probability < MIN_PROB then pure MIN_PROB
  else
    let probability := probability * fertility_term md ai
    if probability < MIN_PROB then pure MIN_PROB
    else score_positions md ai (List.range' 1 (ai.trg_sentence.length - 1)) probability

/-- `prob_of_alignments`: sum of `prob_t_a_given_s` over the sampled
candidates. -/
def prob_of_alignments (md : Model) (alignments : List AlignmentInfo) : Option ℚ :=
  alignments.foldlM (fun probability ai => do
    let p ← prob_t_a_given_s md ai
    pure (probability + p)) 0

/-- The transient per-iteration count accumulator (`Counts`). -/
structure Counts where
  t_given_s : Word → Option Word → ℚ
  any_t_given_s : Option Word → ℚ
  head_distortion : ℤ → Option ℤ → ℤ → ℚ
  head_distortion_for_any_dj : Option ℤ → ℤ → ℚ
  non_head_distortion : ℤ → ℤ → ℚ
  non_head_distortion_for_any_dj : ℤ → ℚ
  p0 : ℚ
  p1 : ℚ
  fertility : ℕ → Option Word → ℚ
  fertility_for_any_phi : Option Word → ℚ
  null : ℕ

namespace Counts

/-- A freshly constructed `Counts()`: every count zero. -/
def initial : Counts where
  t_given_s := fun _ _ => 0
  any_t_given_s := fun _ => 0
  head_distortion := fun _ _ _ => 0
  head_distortion_for_any_dj := fun _ _ => 0
  non_head_distortion := fun _ _ => 0
  non_head_distortion_for_any_dj := fun _ => 0
  p0 := 0
  p1 := 0
  fertility := fun _ _ => 0
  fertility_for_any_phi := fun _ => 0
  null := 0

/-- `update_lexical_translation`: add `count` to `t_given_s[t][s]` and to
the marginal `any_t_given_s[s]`. -/
def update_lexical_translation (cts : Counts) (count : ℚ) (ai : AlignmentInfo)
    (j : ℕ) : Counts :=
  let i := ai.alignOf j
  let t := ai.trg_sentence.getD j 0
  let s := ai.src_sentence.getD i none
  { cts with
    t_given_s := fun t' s' =>
      if t' = t ∧ s' = s then cts.t_given_s t' s' + count else cts.t_given_s t' s'
    any_t_given_s := fun s' =>
      if s' = s then cts.any_t_given_s s' + count else cts.any_t_given_s s' }

/-- `update_distortion`: NULL-aligned positions bump the per-candidate
`null` counter; tablet heads add `count` to the head-distortion count and
its class-pair marginal; other positions add to the non-head count and its
class marginal.  Word-class lookups may fail (`KeyError` = `none`). -/
def update_distortion (cts : Counts) (count : ℚ) (ai : AlignmentInfo) (j : ℕ)
    (src_classes trg_classes : WordClasses) : Option Counts :=
  let i := ai.alignOf j
  let t := ai.trg_sentence.getD j 0
  if i = 0 then
    some { cts with null := cts.null + 1 }
  else if ai.is_head_word j then
    do
      let src_class : Option ℤ ←
        (match ai.previous_cept j with
         | some previous_cept =>
           (wordClassOf src_classes (ai.src_sentence.getD previous_cept none)).map some
         | none => some none)
      let trg_class ← trg_classes.lookup t
      let dj : ℤ := (j : ℤ) - ai.center_of_cept (ai.previous_cept j)
      pure { cts with
        head_distortion := fun d sc tc =>
          if d = dj ∧ sc = src_class ∧ tc = trg_class
          then cts.head_distortion d sc tc + count else cts.head_distortion d sc tc
        head_distortion_for_any_dj := fun sc tc =>
          if sc = src_class ∧ tc = trg_class
          then cts.head_distortion_for_any_dj sc tc + count
          else cts.head_distortion_for_any_dj sc tc }
  else
    do
      let trg_class ← trg_classes.lookup t
      let dj : ℤ := (j : ℤ) - (ai.previous_in_tablet j : ℤ)
      pure { cts with
        non_head_distortion := fun d tc =>
          if d = dj ∧ tc = trg_class
          then cts.non_head_distortion d tc + count else cts.non_head_distortion d tc
        non_head_distortion_for_any_dj := fun tc =>
          if tc = trg_class
          then cts.non_head_distortion_for_any_dj tc + count
          else cts.non_head_distortion_for_any_dj tc }

/-- `update_null_generation`:
`p1 += null * count` and `p0 += (m - 2 * null) * count`. -/
def update_null_generation (cts : Counts) (count : ℚ) (ai : AlignmentInfo) : Counts :=
  let m : ℤ := (ai.trg_sentence.length : ℤ) - 1
  { cts with
    p1 := cts.p1 + (cts.null : ℚ) * count
    p0 := cts.p0 + ((m : ℚ) - 2 * (cts.null : ℚ)) * count }

/-- `update_fertility`: for every source position (NULL included), add
`count` to `fertility[len(cepts[i])][s]` and to the per-word marginal. -/
def update_fertility (cts : Counts) (count : ℚ) (ai : AlignmentInfo) : Counts :=
  (List.range ai.src_sentence.length).foldl (fun c i =>
    let s := ai.src_sentence.getD i none
    let fert := (ai.cepts i).length
    { c with
      fertility := fun f' s' =>
        if f' = fert ∧ s' = s then c.fertility f' s' + count else c.fertility f' s'
      fertility_for_any_phi := fun s' =>
        if s' = s then c.fertility_for_any_phi s' + count
        else c.fertility_for_any_phi s' }) cts

end Counts

/-- E step (b) for one sampled candidate: compute its normalized weight,
reset the per-candidate `null` counter, walk the target positions updating
lexical and distortion counts, then update the null-generation and
fertility counts. -/
def process_candidate (md : Model) (m : ℕ) (total_count : ℚ) (cts : Counts)
    (ai : AlignmentInfo) : Option Counts := do
  let count ← prob_t_a_given_s md ai
  let normalized_count := count / total_count
  let cts := { cts with null := 0 }
  let cts ← (List.range' 1 m).foldlM (fun c j =>
    Counts.update_distortion (Counts.update_lexical_translation c normalized_count ai j)
      normalized_count ai j md.src_classes md.trg_classes) cts
  pure (Counts.update_fertility
    (Counts.update_null_generation cts normalized_count ai) normalized_count ai)

/-- The per-sentence E step of `train`: build the padded sentences, sample
the alignment space (the sampler is the external collaborator), normalize
by the total probability, and accumulate counts for every candidate. -/
def e_step_sentence
    (sampler : List (Option Word) → List Word → List AlignmentInfo)
    (md : Model) (cts : Counts) (pr : List Word × List Word) : Option Counts := do
  let src_sentence := none :: pr.1.map some
  let trg_sentence := 0 :: pr.2
  let m := pr.2.length
  let sampled_alignments := sampler src_sentence trg_sentence
  let total_count ← prob_of_alignments md sampled_alignments
  sampled_alignments.foldlM (process_candidate md m total_count) cts

/-- `maximize_lexical_translation_probabilities`: for every count key,
estimate `count / marginal` floored at `MIN_PROB` (iteration over the
count dictionary is modelled by its nonzero support). -/
def maximize_lexical_translation_probabilities (md : Model) (counts : Counts) : Model :=
  { md with
    translation_table := fun t s =>
      if counts.t_given_s t s ≠ 0
      then max (counts.t_given_s t s / counts.any_t_given_s s) MIN_PROB
      else md.translation_table t s }

/-- `maximize_distortion_probabilities` for both distortion tables. -/
def maximize_distortion_probabilities (md : Model) (counts : Counts) : Model :=
  { md with
    head_distortion_table := fun dj s_cls t_cls =>
      if counts.head_distortion dj s_cls t_cls ≠ 0
      then max (counts.head_distortion dj s_cls t_cls /
                counts.head_distortion_for_any_dj s_cls t_cls) MIN_PROB
      else md.head_distortion_table dj s_cls t_cls
    non_head_distortion_table := fun dj t_cls =>
      if counts.non_head_distortion dj t_cls ≠ 0
      then max (counts.non_head_distortion dj t_cls /
                counts.non_head_distortion_for_any_dj t_cls) MIN_PROB
      else md.non_head_distortion_table dj t_cls }

/-- `maximize_fertility_probabilities`. -/
def maximize_fertility_probabilities (md : Model) (counts : Counts) : Model :=
  { md with
    fertility_table := fun fert s =>
      if counts.fertility fert s ≠ 0
      then max (counts.fertility fert s / counts.fertility_for_any_phi s) MIN_PROB
      else md.fertility_table fert s }

/-- `maximize_null_generation_probabilities`: estimate
`p1 = count_p1 / (count_p1 + count_p0)`, floor it, then clip it at
`1 - MIN_PROB` so that `p0 = 1 - p1` also respects the floor. -/
def maximize_null_generation_probabilities (md : Model) (counts : Counts) : Model :=
  let p1_estimate := counts.p1 / (counts.p1 + counts.p0)
  let p1_estimate := max p1_estimate MIN_PROB
  { md with p1 := min p1_estimate (1 - MIN_PROB) }

/-- The value `prob_t_a_given_s` would compute with no early aborts: the
product of the four factors (null generation, fertility, and the lexical
and distortion factors of every target position). -/
def score_factors_product (md : Model) (ai : AlignmentInfo) : Option ℚ := do
  let ngt ← null_generation_term md ai
  let ds ← (List.range' 1 (ai.trg_sentence.length - 1)).mapM (distortion_term md ai)
  pure (ngt * fertility_term md ai *
    ((List.range' 1 (ai.trg_sentence.length - 1)).map (lexical_translation_term md ai)).prod *
    ds.prod)

/-- Spec-worded previous cept: the nearest (greatest) source position
strictly before `alignment j` with nonzero fertility, if any. -/
def spec_previous_cept (ai : AlignmentInfo) (j : ℕ) : Option ℕ :=
  ((List.range (ai.alignOf j)).filter fun k => 1 ≤ k ∧ ai.fertility_of_i k ≠ 0).max?

/-- Spec-worded previous position in the same tablet: the greatest tablet
position strictly smaller than `j`. -/
def spec_previous_in_tablet (ai : AlignmentInfo) (j : ℕ) : ℕ :=
  (((ai.cepts (ai.alignOf j)).filter (· < j)).max?).getD 0

/-- The distortion factor as worded by the spec, for comparison with the
code's `distortion_term`: factor 1 for NULL-aligned positions; for a tablet
head (a position that is minimal in its tablet), the head-distortion entry
at displacement `j - ceil(mean of the previous cept's tablet)` (0 when
there is no previous cept, with the absent source-class key); otherwise the
non-head entry at `j` minus the greatest earlier position of the tablet. -/
def spec_distortion_factor (md : Model) (ai : AlignmentInfo) (j : ℕ) : Option ℚ :=
  if ai.alignOf j = 0 then some 1
  else if ∀ p ∈ ai.cepts (ai.alignOf j), j ≤ p then
    match spec_previous_cept ai j with
    | none => do
      let trg_class ← md.trg_classes.lookup (ai.trg_sentence.getD j 0)
      pure (md.head_distortion_table ((j : ℤ) - 0) none trg_class)
    | some pc => do
      let prev_word ← ai.src_sentence.getD pc none
      let src_class ← md.src_classes.lookup prev_word
      let trg_class ← md.trg_classes.lookup (ai.trg_sentence.getD j 0)
      pure (md.head_distortion_table
        ((j : ℤ) - Int.ceil (((ai.cepts pc).sum : ℚ) / ((ai.cepts pc).length : ℚ)))
        (some src_class) trg_class)
  else do
    let trg_class ← md.trg_classes.lookup (ai.trg_sentence.getD j 0)
    pure (md.non_head_distortion_table
      ((j : ℤ) - (spec_previous_in_tablet ai j : ℤ)) trg_class)

/-- One call of `train`: accumulate counts over the corpus (E step), then
reset every probability table, carry the alignment table over unchanged,
and re-estimate all the other tables from the counts (M step). -/
def train (sampler : List (Option Word) → List Word → List AlignmentInfo)
    (md : Model) (parallel_corpus : List (List Word × List Word)) : Option Model := do
  let counts ← parallel_corpus.foldlM (e_step_sentence sampler md) Counts.initial
  let existing_alignment_table := md.alignment_table
  let md := reset_probabilities md
  let md := { md with alignment_table := existing_alignment_table }
  let md := maximize_lexical_translation_probabilities md counts
  let md := maximize_distortion_probabilities md counts
  let md := maximize_fertility_probabilities md counts
  pure (maximize_null_generation_probabilities md counts)

/-! ## List helper lemmas -/

/-- `max?` on a list of naturals characterized by membership and bound. -/
lemma natList_max?_eq_some_iff {l : List ℕ} {a : ℕ} :
    l.max? = some a ↔ a ∈ l ∧ ∀ b ∈ l, b ≤ a :=
  List.max?_eq_some_iff (fun x => Nat.le_refl x) (fun x y => max_choice x y)
    (fun _ _ _ => max_le_iff)

/-- The countdown loop of `previous_cept` finds exactly the greatest
position in `1 .. k` with nonzero fertility. -/
lemma prevCeptLoop_eq_max? (ai : AlignmentInfo) (k : ℕ) :
    ai.prevCeptLoop k
      = ((List.range (k + 1)).filter fun x => 1 ≤ x ∧ ai.fertility_of_i x ≠ 0).max? := by
  induction k with
  | zero => simp [AlignmentInfo.prevCeptLoop, List.range_succ]
  | succ k ih =>
    rw [AlignmentInfo.prevCeptLoop]
    rw [List.range_succ (n := k + 1), List.filter_append]
    by_cases h : ai.fertility_of_i (k + 1) = 0
    · simp [h, ih]
    · simp only [h, if_false]
      have hfil : (List.filter (fun x => decide (1 ≤ x ∧ ai.fertility_of_i x ≠ 0)) [k + 1])
          = [k + 1] := by
        simp [h]
      rw [hfil]
      symm
      rw [natList_max?_eq_some_iff]
      constructor
      · simp
      · intro b hb
        rcases List.mem_append.mp hb with hb | hb
        · exact Nat.le_of_lt (List.mem_range.mp (List.mem_of_mem_filter hb))
        · simp at hb; omega

/-- Tablets are strictly increasing position lists. -/
lemma cepts_pairwise (ai : AlignmentInfo) (i : ℕ) :
    (ai.cepts i).Pairwise (· < ·) :=
  (List.pairwise_lt_range _).filter _

/-- A target position in range belongs to the tablet of the source
position it is aligned to. -/
lemma mem_cepts_self (ai : AlignmentInfo) {j : ℕ} (h1 : 1 ≤ j)
    (h2 : j < ai.trg_sentence.length) : j ∈ ai.cepts (ai.alignOf j) := by
  simp [AlignmentInfo.cepts, List.mem_filter, List.mem_range]
  exact ⟨h2, h1⟩

/-- Tablet sizes are bounded by the number of real target positions. -/
lemma cepts_length_le (ai : AlignmentInfo) (i : ℕ) :
    (ai.cepts i).length ≤ ai.trg_sentence.length - 1 := by
  unfold AlignmentInfo.cepts
  cases hlen : ai.trg_sentence.length with
  | zero => simp
  | succ n =>
    rw [List.range_succ_eq_map]
    have : List.filter (fun j => decide (1 ≤ j ∧ ai.alignOf j = i))
        (0 :: (List.range n).map Nat.succ)
        = List.filter (fun j => decide (1 ≤ j ∧ ai.alignOf j = i))
          ((List.range n).map Nat.succ) := by
      simp
    rw [this]
    calc (List.filter _ ((List.range n).map Nat.succ)).length
        ≤ ((List.range n).map Nat.succ).length := List.length_filter_le _ _
      _ = n := by simp
      _ = n + 1 - 1 := by omega

/-- For a strictly increasing list, being the first element is the same as
being a minimum. -/
lemma head?_eq_some_iff_min {l : List ℕ} (hs : l.Pairwise (· < ·)) {j : ℕ}
    (hj : j ∈ l) : l.head? = some j ↔ ∀ p ∈ l, j ≤ p := by
  cases l with
  | nil => cases hj
  | cons a tl =>
    have ha : ∀ x ∈ tl, a < x := fun x hx => List.rel_of_pairwise_cons hs hx
    constructor
    · intro h p hp
      have haj : a = j := by simpa using h
      rcases List.mem_cons.mp hp with rfl | hp
      · omega
      · exact Nat.le_of_lt (haj ▸ ha p hp)
    · intro hmin
      rcases List.mem_cons.mp hj with rfl | hj
      · rfl
      · have h1 := ha j hj
        have h2 := hmin a (List.mem_cons_self a tl)
        omega

/-- In a strictly increasing list, the element right before `j` is the
greatest element smaller than `j`. -/
lemma getD_indexOf_pred {l : List ℕ} (hs : l.Pairwise (· < ·)) {j : ℕ}
    (hj : j ∈ l) (hh : l.head? ≠ some j) :
    l.getD (l.indexOf j - 1) 0 = ((l.filter (· < j)).max?).getD 0 := by
  induction l with
  | nil => cases hj
  | cons a tl ih =>
    have ha : ∀ x ∈ tl, a < x := fun x hx => List.rel_of_pairwise_cons hs hx
    have haj : a ≠ j := fun h => hh (by simp [h])
    have hjt : j ∈ tl := by
      rcases List.mem_cons.mp hj with rfl | h
      · exact absurd rfl haj
      · exact h
    have haltj : a < j := ha j hjt
    rw [List.indexOf_cons_ne tl haj]
    have hfc : (a :: tl).filter (· < j) = a :: tl.filter (· < j) := by
      simp [haltj]
    cases h0 : tl.indexOf j with
    | zero =>
      -- j is the head of tl: the previous element is a itself
      have htl : tl.head? = some j := by
        cases tl with
        | nil => cases hjt
        | cons b tl' =>
          by_cases hbj : b = j
          · simp [hbj]
          · rw [List.indexOf_cons_ne tl' hbj] at h0; cases h0
      have hflt : tl.filter (· < j) = [] := by
        rw [List.filter_eq_nil_iff]
        intro x hx
        cases tl with
        | nil => cases hx
        | cons b tl' =>
          have hbj : b = j := by simpa using htl
          rcases List.mem_cons.mp hx with rfl | hx
          · simp [hbj]
          · have hlt : b < x := List.rel_of_pairwise_cons (List.pairwise_cons.mp hs).2 hx
            simp only [decide_eq_true_eq]
            omega
      rw [hfc, hflt]
      simp
    | succ k =>
      have hth : tl.head? ≠ some j := by
        cases tl with
        | nil => cases hjt
        | cons b tl' =>
          intro hcon
          have hbj : b = j := by simpa using hcon
          rw [hbj] at h0
          simp [List.indexOf_cons_self] at h0
      have ihx := ih (List.pairwise_cons.mp hs).2 hjt hth
      rw [h0] at ihx
      simp only [Nat.add_sub_cancel] at ihx
      have hL : (a :: tl).getD ((k + 1).succ - 1) 0 = tl.getD k 0 := by simp
      rw [hL, ihx, hfc]
      -- the filtered tail is nonempty, so prepending `a` keeps the max
      obtain ⟨b, tl', rfl⟩ : ∃ b tl', tl = b :: tl' := by
        cases tl with
        | nil => cases hjt
        | cons b tl' => exact ⟨b, tl', rfl⟩
      have hbj : b ≠ j := by
        intro h; rw [h] at h0; simp [List.indexOf_cons_self] at h0
      have hbltj : b < j := by
        have hmem : j ∈ tl' := by
          rcases List.mem_cons.mp hjt with rfl | h
          · exact absurd rfl hbj
          · exact h
        exact List.rel_of_pairwise_cons (List.pairwise_cons.mp hs).2 hmem
      have hbmem : b ∈ (b :: tl').filter (· < j) := by
        simp [hbltj]
      obtain ⟨c, hc⟩ : ∃ c, ((b :: tl').filter (· < j)).max? = some c := by
        cases hmc : ((b :: tl').filter (· < j)).max? with
        | none => rw [List.max?_eq_none_iff] at hmc; rw [hmc] at hbmem; cases hbmem
        | some c => exact ⟨c, rfl⟩
      have hcprop := natList_max?_eq_some_iff.mp hc
      have hcons : (a :: (b :: tl').filter (· < j)).max? = some c := by
        rw [natList_max?_eq_some_iff]
        constructor
        · exact List.mem_cons_of_mem a hcprop.1
        · intro x hx
          rcases List.mem_cons.mp hx with rfl | hx
          · exact Nat.le_of_lt (ha c (List.mem_of_mem_filter hcprop.1))
          · exact hcprop.2 x hx
      rw [hc, hcons]

/-! ## Arithmetic helper lemmas -/

/-- A multiplicative left fold is the start value times the product. -/
lemma foldl_mul_eq_prod (f : ℕ → ℚ) (l : List ℕ) (a : ℚ) :
    l.foldl (fun v i => v * f i) a = a * (l.map f).prod := by
  induction l generalizing a with
  | nil => simp
  | cons x xs ih => simp [ih, mul_assoc]

/-- The incremental combination loop computes the binomial coefficient
exactly (including the degenerate `k > n` case, where a zero factor makes
the product vanish). -/
lemma prod_incr_eq_choose (n k : ℕ) :
    ((List.range' 1 k).map (fun i : ℕ => ((n : ℚ) - (i : ℚ) + 1) / (i : ℚ))).prod
      = (n.choose k : ℚ) := by
  induction k with
  | zero => simp
  | succ k ih =>
    rw [List.range'_concat, List.map_append, List.prod_append, ih]
    simp only [List.map_cons, List.map_nil, List.prod_cons, List.prod_nil, mul_one]
    rcases lt_or_ge k n with hk | hk
    · have hcast : ((n - k : ℕ) : ℚ) = (n : ℚ) - (k : ℚ) := by
        push_cast [Nat.cast_sub hk.le]; ring
      have hrec := Nat.choose_succ_right_eq n k
      have hrecQ : (n.choose (k + 1) : ℚ) * ((k : ℚ) + 1) = (n.choose k : ℚ) * ((n : ℚ) - (k : ℚ)) := by
        have := congrArg (fun x : ℕ => (x : ℚ)) hrec
        push_cast at this
        rw [this, hcast]
      have hk1 : ((k : ℚ) + 1) ≠ 0 := by positivity
      field_simp
      rw [show (n : ℚ) - (1 + (k : ℚ)) + 1 = (n : ℚ) - (k : ℚ) by ring]
      rw [show (n.choose k : ℚ) * ((n : ℚ) - (k : ℚ)) = (n.choose (k + 1) : ℚ) * ((k : ℚ) + 1) from hrecQ.symm]
      ring
    · rcases eq_or_lt_of_le hk with heq | hlt
      · rw [← heq, Nat.choose_self, Nat.choose_eq_zero_of_lt (Nat.lt_succ_self n)]
        push_cast
        rw [show (n : ℚ) - (1 + 1 * (n : ℚ)) + 1 = 0 by ring]
        simp
      · rw [Nat.choose_eq_zero_of_lt hlt, Nat.choose_eq_zero_of_lt (Nat.lt_succ_of_lt hlt)]
        simp

/-- A product of factors in `[0, 1]` stays in `[0, 1]`. -/
lemma prod_mem_unit {l : List ℚ} (h : ∀ x ∈ l, 0 ≤ x ∧ x ≤ 1) :
    0 ≤ l.prod ∧ l.prod ≤ 1 := by
  induction l with
  | nil => simp
  | cons a tl ih =>
    have ha := h a (List.mem_cons_self a tl)
    have htl := ih fun x hx => h x (List.mem_cons_of_mem a hx)
    rw [List.prod_cons]
    constructor
    · exact mul_nonneg ha.1 htl.1
    · nlinarith [ha.1, ha.2, htl.1, htl.2]

/-- Every distortion value produced by a successful `mapM` pass comes from
`distortion_term` at some position. -/
lemma mapM_mem_of_eq_some {f : ℕ → Option ℚ} :
    ∀ {l : List ℕ} {ds : List ℚ}, l.mapM f = some ds →
      ∀ d ∈ ds, ∃ a ∈ l, f a = some d := by
  intro l
  induction l with
  | nil =>
    intro ds h d hd
    rw [List.mapM_nil] at h
    cases h
    cases hd
  | cons a tl ih =>
    intro ds h d hd
    rw [List.mapM_cons] at h
    cases hfa : f a with
    | none => rw [hfa] at h; simp at h
    | some x =>
      rw [hfa] at h
      cases hmt : tl.mapM f with
      | none => rw [hmt] at h; simp at h
      | some xs =>
        rw [hmt] at h
        simp at h
        subst h
        rcases List.mem_cons.mp hd with rfl | hd
        · exact ⟨a, List.mem_cons_self a tl, hfa⟩
        · obtain ⟨b, hb, hfb⟩ := ih hmt d hd
          exact ⟨b, List.mem_cons_of_mem a hb, hfb⟩

/-! ## Analysis of the four score factors -/

/-- The floor constant is strictly positive. -/
lemma min_prob_pos : (0 : ℚ) < MIN_PROB := by norm_num [MIN_PROB]

/-- A successful `null_generation_term` value is non-negative, and it can
only lie below the floor by being exactly zero (a vanishing binomial
coefficient). -/
lemma null_generation_term_cases (md : Model) (ai : AlignmentInfo) {v : ℚ}
    (h : null_generation_term md ai = some v) :
    0 ≤ v ∧ (v < MIN_PROB → v = 0) := by
  rw [null_generation_term] at h
  cases hz : zpowQ (scoring_p0 md)
      ((ai.trg_sentence.length : ℤ) - 1 - 2 * (ai.fertility_of_i 0 : ℤ)) with
  | none => rw [hz] at h; simp at h
  | some powp0 =>
  rw [hz] at h
  have h2 : (if 1 * (md.p1 ^ ai.fertility_of_i 0 * powp0) < MIN_PROB
      then some MIN_PROB
      else some ((List.range' 1 (ai.fertility_of_i 0)).foldl
        (fun v (i : ℕ) => v * (((((ai.trg_sentence.length : ℤ) - 1 : ℤ) : ℚ)
          - (ai.fertility_of_i 0 : ℚ) - (i : ℚ) + 1) / (i : ℚ)))
        (1 * (md.p1 ^ ai.fertility_of_i 0 * powp0)))) = some v := h
  clear h
  split_ifs at h2 with hlt
  · -- early return of the floor
    have hv : v = MIN_PROB := by simpa using h2.symm
    subst hv
    exact ⟨le_of_lt min_prob_pos, fun hc => absurd hc (lt_irrefl _)⟩
  · push_neg at hlt
    have hv : v = (List.range' 1 (ai.fertility_of_i 0)).foldl
        (fun v (i : ℕ) => v * (((((ai.trg_sentence.length : ℤ) - 1 : ℤ) : ℚ)
          - (ai.fertility_of_i 0 : ℚ) - (i : ℚ) + 1) / (i : ℚ)))
        (1 * (md.p1 ^ ai.fertility_of_i 0 * powp0)) := by
      simpa using h2.symm
    have hval : MIN_PROB ≤ 1 * (md.p1 ^ ai.fertility_of_i 0 * powp0) := hlt
    cases hnf : ai.fertility_of_i 0 with
    | zero =>
      rw [hnf] at hv
      simp at hv
      subst hv
      rw [hnf] at hval
      constructor
      · linarith [min_prob_pos]
      · intro hc; simp at hval; linarith
    | succ n' =>
      -- the target sentence is long enough for the choose link
      have hlen : 1 ≤ ai.trg_sentence.length := by
        have hne : ai.cepts 0 ≠ [] := by
          intro hnil
          rw [AlignmentInfo.fertility_of_i, hnil] at hnf
          cases hnf
        obtain ⟨x, hx⟩ := List.exists_mem_of_ne_nil _ hne
        have := List.mem_range.mp (List.mem_of_mem_filter hx)
        omega
      have hnfle : ai.fertility_of_i 0 ≤ ai.trg_sentence.length - 1 :=
        cepts_length_le ai 0
      rw [foldl_mul_eq_prod
        (fun i : ℕ => ((((ai.trg_sentence.length : ℤ) - 1 : ℤ) : ℚ)
          - (ai.fertility_of_i 0 : ℚ) - (i : ℚ) + 1) / (i : ℚ))] at hv
      have hfun : (fun i : ℕ => ((((ai.trg_sentence.length : ℤ) - 1 : ℤ) : ℚ)
            - (ai.fertility_of_i 0 : ℚ) - (i : ℚ) + 1) / (i : ℚ))
          = (fun i : ℕ => (((ai.trg_sentence.length - 1 - ai.fertility_of_i 0 : ℕ) : ℚ)
            - (i : ℚ) + 1) / (i : ℚ)) := by
        funext i
        congr 1
        have h1 : ((ai.trg_sentence.length - 1 - ai.fertility_of_i 0 : ℕ) : ℚ)
            = (ai.trg_sentence.length : ℚ) - 1 - (ai.fertility_of_i 0 : ℚ) := by
          have : ai.fertility_of_i 0 ≤ ai.trg_sentence.length - 1 := hnfle
          push_cast [Nat.cast_sub this, Nat.cast_sub hlen]
          ring
        rw [h1]
        push_cast
        ring
      rw [hfun, hnf, prod_incr_eq_choose] at hv
      rw [hnf] at hval
      rcases Nat.eq_zero_or_pos
          ((ai.trg_sentence.length - 1 - (n' + 1)).choose (n' + 1)) with hc0 | hcpos
      · rw [hc0] at hv
        simp at hv
        subst hv
        exact ⟨le_refl 0, fun _ => rfl⟩
      · have hcge : (1 : ℚ)
            ≤ (((ai.trg_sentence.length - 1 - (n' + 1)).choose (n' + 1) : ℕ) : ℚ) :=
          Nat.one_le_cast.mpr hcpos
        have hX : (0 : ℚ) ≤ 1 * (md.p1 ^ (n' + 1) * powp0) := by
          linarith [min_prob_pos]
        have hstep := mul_le_mul_of_nonneg_left hcge hX
        have hvge : MIN_PROB ≤ v := by
          rw [hv]
          nlinarith [hval, hstep]
        constructor
        · linarith [min_prob_pos]
        · intro hcon; linarith

/-- The fertility loop preserves non-negativity of the running value when
the fertility table is non-negative. -/
lemma fertility_loop_nonneg (md : Model) (ai : AlignmentInfo)
    (hF : ∀ f s, 0 ≤ md.fertility_table f s) :
    ∀ (l : List ℕ) (v : ℚ), 0 ≤ v → 0 ≤ fertility_loop md ai l v := by
  intro l
  induction l with
  | nil => intro v hv; simpa [fertility_loop] using hv
  | cons i is ih =>
    intro v hv
    rw [fertility_loop]
    split_ifs with hlt
    · exact le_of_lt min_prob_pos
    · apply ih
      apply mul_nonneg hv
      apply mul_nonneg _ (hF _ _)
      positivity

/-- `fertility_term` is non-negative when the fertility table is. -/
lemma fertility_term_nonneg (md : Model) (ai : AlignmentInfo)
    (hF : ∀ f s, 0 ≤ md.fertility_table f s) : 0 ≤ fertility_term md ai :=
  fertility_loop_nonneg md ai hF _ 1 (by norm_num)

/-- A successful distortion factor lies in `[0, 1]` when both distortion
tables do. -/
lemma distortion_term_bounds (md : Model) (ai : AlignmentInfo) (j : ℕ)
    (hH : ∀ d s c, 0 ≤ md.head_distortion_table d s c ∧ md.head_distortion_table d s c ≤ 1)
    (hN : ∀ d c, 0 ≤ md.non_head_distortion_table d c ∧ md.non_head_distortion_table d c ≤ 1)
    {d : ℚ} (h : distortion_term md ai j = some d) : 0 ≤ d ∧ d ≤ 1 := by
  rw [distortion_term] at h
  by_cases h0 : ai.alignOf j = 0
  · rw [if_pos h0] at h
    have : d = 1 := by simpa using h.symm
    subst this; norm_num
  · rw [if_neg h0] at h
    by_cases hh : ai.is_head_word j
    · rw [if_pos hh] at h
      cases hm : (match ai.previous_cept j with
          | some previous_cept =>
            (wordClassOf md.src_classes (ai.src_sentence.getD previous_cept none)).map some
          | none => some (none : Option ℤ)) with
      | none => rw [hm] at h; simp at h
      | some sc =>
        rw [hm] at h
        cases hl : md.trg_classes.lookup (ai.trg_sentence.getD j 0) with
        | none =>
          have h' : (md.trg_classes.lookup (ai.trg_sentence.getD j 0)).bind
              (fun trg_class => some (md.head_distortion_table
                ((j : ℤ) - ai.center_of_cept (ai.previous_cept j)) sc trg_class)) = some d := h
          rw [hl] at h'; simp at h'
        | some tc =>
          have h' : (md.trg_classes.lookup (ai.trg_sentence.getD j 0)).bind
              (fun trg_class => some (md.head_distortion_table
                ((j : ℤ) - ai.center_of_cept (ai.previous_cept j)) sc trg_class)) = some d := h
          rw [hl] at h'
          have : md.head_distortion_table
              ((j : ℤ) - ai.center_of_cept (ai.previous_cept j)) sc tc = d := by
            simpa using h'
          subst this
          exact hH _ _ _
    · rw [if_neg hh] at h
      cases hl : md.trg_classes.lookup (ai.trg_sentence.getD j 0) with
      | none => rw [hl] at h; simp at h
      | some tc =>
        rw [hl] at h
        have : md.non_head_distortion_table
            ((j : ℤ) - (ai.previous_in_tablet j : ℤ)) tc = d := by
          simpa using h
        subst this
        exact hN _ _

/-- The position loop of `prob_t_a_given_s` never goes below the floor. -/
lemma score_positions_ge_min (md : Model) (ai : AlignmentInfo) :
    ∀ (js : List ℕ) (prob r : ℚ), MIN_PROB ≤ prob →
      score_positions md ai js prob = some r → MIN_PROB ≤ r := by
  intro js
  induction js with
  | nil =>
    intro prob r hp h
    rw [score_positions] at h
    have : r = prob := by simpa using h.symm
    subst this; exact hp
  | cons j js ih =>
    intro prob r hp h
    rw [score_positions] at h
    split_ifs at h with h1
    · have : r = MIN_PROB := by simpa using h.symm
      subst this; exact le_refl _
    · cases hd : distortion_term md ai j with
      | none => rw [hd] at h; simp at h
      | some d =>
        rw [hd] at h
        have h2 : (if prob * lexical_translation_term md ai j * d < MIN_PROB
            then some MIN_PROB
            else score_positions md ai js (prob * lexical_translation_term md ai j * d))
            = some r := h
        split_ifs at h2 with h3
        · have : r = MIN_PROB := by simpa using h2.symm
          subst this; exact le_refl _
        · push_neg at h3
          exact ih _ r h3 h2

/-- `prob_t_a_given_s` returns a value at or above the floor whenever it
returns at all. -/
lemma prob_t_a_given_s_ge_min (md : Model) (ai : AlignmentInfo) {r : ℚ}
    (h : prob_t_a_given_s md ai = some r) : MIN_PROB ≤ r := by
  rw [prob_t_a_given_s] at h
  cases hngt : null_generation_term md ai with
  | none => rw [hngt] at h; simp at h
  | some ngt =>
  rw [hngt] at h
  have h2 : (if 1 * ngt < MIN_PROB then some MIN_PROB
      else if 1 * ngt * fertility_term md ai < MIN_PROB then some MIN_PROB
      else score_positions md ai (List.range' 1 (ai.trg_sentence.length - 1))
        (1 * ngt * fertility_term md ai)) = some r := h
  clear h
  split_ifs at h2 with h1 h3
  · have : r = MIN_PROB := by simpa using h2.symm
    subst this; exact le_refl _
  · have : r = MIN_PROB := by simpa using h2.symm
    subst this; exact le_refl _
  · push_neg at h3
    exact score_positions_ge_min md ai _ _ r h3 h2

/-- The accumulating sum of `prob_of_alignments` only grows, and grows by
at least the floor for every candidate. -/
lemma prob_of_alignments_acc (md : Model) :
    ∀ (l : List AlignmentInfo) (acc total : ℚ),
      (l.foldlM (fun probability ai => do
        let p ← prob_t_a_given_s md ai
        pure (probability + p)) acc) = some total →
      acc ≤ total ∧ (l ≠ [] → acc + MIN_PROB ≤ total) := by
  intro l
  induction l with
  | nil =>
    intro acc total h
    have : acc = total := by simpa using h
    subst this
    exact ⟨le_refl _, fun hc => absurd rfl hc⟩
  | cons ai l ih =>
    intro acc total h
    rw [List.foldlM_cons] at h
    cases hp : prob_t_a_given_s md ai with
    | none =>
      rw [hp] at h
      simp at h
    | some p =>
      rw [hp] at h
      have hpge : MIN_PROB ≤ p := prob_t_a_given_s_ge_min md ai hp
      have h2' : (l.foldlM (fun probability ai => do
          let p ← prob_t_a_given_s md ai
          pure (probability + p)) (acc + p)) = some total := h
      have hih := ih (acc + p) total h2'
      constructor
      · linarith [hih.1, min_prob_pos]
      · intro _
        linarith [hih.1]

/-- Products of two unit-interval rationals stay in the unit interval. -/
lemma unit_mul {a b : ℚ} (ha : 0 ≤ a ∧ a ≤ 1) (hb : 0 ≤ b ∧ b ≤ 1) :
    0 ≤ a * b ∧ a * b ≤ 1 := by
  refine ⟨mul_nonneg ha.1 hb.1, ?_⟩
  calc a * b ≤ 1 * b := mul_le_mul_of_nonneg_right ha.2 hb.1
    _ = b := one_mul b
    _ ≤ 1 := hb.2

/-- The position loop either computes exactly the product of its lexical
and distortion factors, or aborts with the floor in a state where that
product is itself below the floor. -/
lemma score_positions_spec (md : Model) (ai : AlignmentInfo)
    (hT : ∀ t s, 0 ≤ md.translation_table t s ∧ md.translation_table t s ≤ 1)
    (hH : ∀ d s c, 0 ≤ md.head_distortion_table d s c ∧ md.head_distortion_table d s c ≤ 1)
    (hN : ∀ d c, 0 ≤ md.non_head_distortion_table d c ∧ md.non_head_distortion_table d c ≤ 1) :
    ∀ (js : List ℕ) (prob : ℚ) (ds : List ℚ) (r : ℚ), 0 ≤ prob →
      js.mapM (distortion_term md ai) = some ds →
      score_positions md ai js prob = some r →
      r = prob * ((js.map (lexical_translation_term md ai)).prod * ds.prod) ∨
      (r = MIN_PROB ∧
        prob * ((js.map (lexical_translation_term md ai)).prod * ds.prod) < MIN_PROB) := by
  intro js
  induction js with
  | nil =>
    intro prob ds r hp hm h
    rw [List.mapM_nil] at hm
    cases hm
    have : prob = r := by simpa [score_positions] using h
    subst this
    left; simp
  | cons j js ih =>
    intro prob ds r hp hm h
    rw [List.mapM_cons] at hm
    cases hd : distortion_term md ai j with
    | none => rw [hd] at hm; simp at hm
    | some d =>
    rw [hd] at hm
    cases hds : js.mapM (distortion_term md ai) with
    | none => rw [hds] at hm; simp at hm
    | some ds' =>
    rw [hds] at hm
    have hdseq : d :: ds' = ds := by simpa using hm
    subst hdseq
    have hd01 : 0 ≤ d ∧ d ≤ 1 := distortion_term_bounds md ai j hH hN hd
    have hds'01 : ∀ x ∈ ds', 0 ≤ x ∧ x ≤ 1 := by
      intro x hx
      obtain ⟨a, _, hfa⟩ := mapM_mem_of_eq_some hds x hx
      exact distortion_term_bounds md ai a hH hN hfa
    have hD := prod_mem_unit hds'01
    have hlexmem : ∀ x ∈ js.map (lexical_translation_term md ai), 0 ≤ x ∧ x ≤ 1 := by
      intro x hx
      obtain ⟨a, _, rfl⟩ := List.mem_map.mp hx
      simpa [lexical_translation_term] using hT _ _
    have hL := prod_mem_unit hlexmem
    have hlexj : 0 ≤ lexical_translation_term md ai j ∧
        lexical_translation_term md ai j ≤ 1 := by
      simpa [lexical_translation_term] using hT _ _
    rw [score_positions] at h
    split_ifs at h with h1
    · -- abort after the lexical factor, before the distortion lookup
      have hr : r = MIN_PROB := by simpa using h.symm
      right
      refine ⟨hr, ?_⟩
      have hq : 0 ≤ prob * lexical_translation_term md ai j := mul_nonneg hp hlexj.1
      have hf2 : (js.map (lexical_translation_term md ai)).prod * (d * ds'.prod) ≤ 1 :=
        (unit_mul hL (unit_mul hd01 hD)).2
      have hmul := mul_le_mul_of_nonneg_left hf2 hq
      rw [List.map_cons, List.prod_cons, List.prod_cons]
      rw [show prob * (lexical_translation_term md ai j *
              (js.map (lexical_translation_term md ai)).prod * (d * ds'.prod))
          = (prob * lexical_translation_term md ai j) *
            ((js.map (lexical_translation_term md ai)).prod * (d * ds'.prod)) by ring]
      linarith
    · cases hd2 : distortion_term md ai j with
      | none => rw [hd2] at h; simp at h
      | some d2 =>
      rw [hd2] at h
      have hdd : d2 = d := by rw [hd2] at hd; simpa using hd
      subst hdd
      have h2 : (if prob * lexical_translation_term md ai j * d2 < MIN_PROB
          then some MIN_PROB
          else score_positions md ai js
            (prob * lexical_translation_term md ai j * d2)) = some r := h
      clear h
      split_ifs at h2 with h3
      · -- abort right after the distortion factor
        have hr : r = MIN_PROB := by simpa using h2.symm
        right
        refine ⟨hr, ?_⟩
        have hq : 0 ≤ prob * lexical_translation_term md ai j * d2 :=
          mul_nonneg (mul_nonneg hp hlexj.1) hd01.1
        have hf2 : (js.map (lexical_translation_term md ai)).prod * ds'.prod ≤ 1 :=
          (unit_mul hL hD).2
        have hmul := mul_le_mul_of_nonneg_left hf2 hq
        rw [List.map_cons, List.prod_cons, List.prod_cons]
        rw [show prob * (lexical_translation_term md ai j *
                (js.map (lexical_translation_term md ai)).prod * (d2 * ds'.prod))
            = (prob * lexical_translation_term md ai j * d2) *
              ((js.map (lexical_translation_term md ai)).prod * ds'.prod) by ring]
        linarith
      · push_neg at h3
        have hq : 0 ≤ prob * lexical_translation_term md ai j * d2 := by
          linarith [min_prob_pos]
        rcases ih (prob * lexical_translation_term md ai j * d2) ds' r hq hds h2 with
          hcase | ⟨hr, hlt⟩
        · left
          rw [hcase, List.map_cons, List.prod_cons, List.prod_cons]
          ring
        · right
          refine ⟨hr, ?_⟩
          rw [List.map_cons, List.prod_cons, List.prod_cons]
          rw [show prob * (lexical_translation_term md ai j *
                  (js.map (lexical_translation_term md ai)).prod * (d2 * ds'.prod))
              = prob * lexical_translation_term md ai j * d2 *
                ((js.map (lexical_translation_term md ai)).prod * ds'.prod) by ring]
          exact hlt

/-! ## Count-accumulator bookkeeping -/

/-- Lexical-count updates do not touch the null-generation state. -/
lemma update_lexical_proj (cts : Counts) (count : ℚ) (ai : AlignmentInfo) (j : ℕ) :
    (cts.update_lexical_translation count ai j).p0 = cts.p0 ∧
    (cts.update_lexical_translation count ai j).p1 = cts.p1 ∧
    (cts.update_lexical_translation count ai j).null = cts.null :=
  ⟨rfl, rfl, rfl⟩

/-- A successful distortion-count update leaves `p0`/`p1` alone and bumps
the per-candidate `null` counter exactly on NULL-aligned positions. -/
lemma update_distortion_proj {cts cts' : Counts} (count : ℚ) (ai : AlignmentInfo)
    (j : ℕ) (src_classes trg_classes : WordClasses)
    (h : cts.update_distortion count ai j src_classes trg_classes = some cts') :
    cts'.p0 = cts.p0 ∧ cts'.p1 = cts.p1 ∧
    cts'.null = cts.null + (if ai.alignOf j = 0 then 1 else 0) := by
  rw [Counts.update_distortion] at h
  by_cases h0 : ai.alignOf j = 0
  · rw [if_pos h0] at h
    have : { cts with null := cts.null + 1 } = cts' := by simpa using h
    subst this
    simp [h0]
  · rw [if_neg h0] at h
    by_cases hh : ai.is_head_word j
    · rw [if_pos hh] at h
      cases hm : (match ai.previous_cept j with
          | some previous_cept =>
            (wordClassOf src_classes (ai.src_sentence.getD previous_cept none)).map some
          | none => some (none : Option ℤ)) with
      | none => rw [hm] at h; simp at h
      | some sc =>
        rw [hm] at h
        cases hl : trg_classes.lookup (ai.trg_sentence.getD j 0) with
        | none =>
          have h' : (trg_classes.lookup (ai.trg_sentence.getD j 0)).bind
              (fun trg_class => some { cts with
                head_distortion := fun d s c =>
                  if d = (j : ℤ) - ai.center_of_cept (ai.previous_cept j) ∧ s = sc ∧ c = trg_class
                  then cts.head_distortion d s c + count else cts.head_distortion d s c
                head_distortion_for_any_dj := fun s c =>
                  if s = sc ∧ c = trg_class
                  then cts.head_distortion_for_any_dj s c + count
                  else cts.head_distortion_for_any_dj s c }) = some cts' := h
          rw [hl] at h'; simp at h'
        | some tc =>
          have h' : (trg_classes.lookup (ai.trg_sentence.getD j 0)).bind
              (fun trg_class => some { cts with
                head_distortion := fun d s c =>
                  if d = (j : ℤ) - ai.center_of_cept (ai.previous_cept j) ∧ s = sc ∧ c = trg_class
                  then cts.head_distortion d s c + count else cts.head_distortion d s c
                head_distortion_for_any_dj := fun s c =>
                  if s = sc ∧ c = trg_class
                  then cts.head_distortion_for_any_dj s c + count
                  else cts.head_distortion_for_any_dj s c }) = some cts' := h
          rw [hl] at h'
          have hrec : { cts with
              head_distortion := fun d s c =>
                if d = (j : ℤ) - ai.center_of_cept (ai.previous_cept j) ∧ s = sc ∧ c = tc
                then cts.head_distortion d s c + count else cts.head_distortion d s c
              head_distortion_for_any_dj := fun s c =>
                if s = sc ∧ c = tc
                then cts.head_distortion_for_any_dj s c + count
                else cts.head_distortion_for_any_dj s c } = cts' := by
            simpa using h'
          subst hrec
          simp [h0]
    · rw [if_neg hh] at h
      cases hl : trg_classes.lookup (ai.trg_sentence.getD j 0) with
      | none => rw [hl] at h; simp at h
      | some tc =>
        rw [hl] at h
        have hrec : { cts with
            non_head_distortion := fun d c =>
              if d = (j : ℤ) - (ai.previous_in_tablet j : ℤ) ∧ c = tc
              then cts.non_head_distortion d c + count else cts.non_head_distortion d c
            non_head_distortion_for_any_dj := fun c =>
              if c = tc
              then cts.non_head_distortion_for_any_dj c + count
              else cts.non_head_distortion_for_any_dj c } = cts' := by
          simpa using h
        subst hrec
        simp [h0]

/-- The per-position loop of the E step leaves `p0`/`p1` untouched and
accumulates into `null` exactly the number of NULL-aligned positions it
visits. -/
lemma estep_fold_proj (md : Model) (ai : AlignmentInfo) (w : ℚ) :
    ∀ (js : List ℕ) (c c' : Counts),
      js.foldlM (fun c j =>
        Counts.update_distortion (Counts.update_lexical_translation c w ai j)
          w ai j md.src_classes md.trg_classes) c = some c' →
      c'.p0 = c.p0 ∧ c'.p1 = c.p1 ∧
      c'.null = c.null + js.countP (fun j => decide (ai.alignOf j = 0)) := by
  intro js
  induction js with
  | nil =>
    intro c c' h
    have : c = c' := by simpa using h
    subst this
    simp
  | cons j js ih =>
    intro c c' h
    rw [List.foldlM_cons] at h
    cases hg : Counts.update_distortion (Counts.update_lexical_translation c w ai j)
        w ai j md.src_classes md.trg_classes with
    | none => rw [hg] at h; simp at h
    | some c1 =>
      rw [hg] at h
      have h2 : js.foldlM (fun c j =>
          Counts.update_distortion (Counts.update_lexical_translation c w ai j)
            w ai j md.src_classes md.trg_classes) c1 = some c' := h
      have hstep := update_distortion_proj w ai j md.src_classes md.trg_classes hg
      have hlex := update_lexical_proj c w ai j
      have hih := ih c1 c' h2
      refine ⟨?_, ?_, ?_⟩
      · rw [hih.1, hstep.1, hlex.1]
      · rw [hih.2.1, hstep.2.1, hlex.2.1]
      · rw [hih.2.2, hstep.2.2, hlex.2.2, List.countP_cons]
        by_cases h0 : ai.alignOf j = 0
        · simp [h0]
          omega
        · simp [h0]

/-- Fertility-count updates do not touch the null-generation state. -/
lemma update_fertility_proj (cts : Counts) (count : ℚ) (ai : AlignmentInfo) :
    (cts.update_fertility count ai).p0 = cts.p0 ∧
    (cts.update_fertility count ai).p1 = cts.p1 ∧
    (cts.update_fertility count ai).null = cts.null := by
  rw [Counts.update_fertility]
  generalize List.range ai.src_sentence.length = l
  induction l generalizing cts with
  | nil => exact ⟨rfl, rfl, rfl⟩
  | cons i is ih =>
    rw [List.foldl_cons]
    exact ih _

/-- `update_null_generation` adds exactly `null * count` to `p1` and
`(m - 2 * null) * count` to `p0`. -/
lemma update_null_generation_proj (cts : Counts) (count : ℚ) (ai : AlignmentInfo) :
    (cts.update_null_generation count ai).p1 = cts.p1 + (cts.null : ℚ) * count ∧
    (cts.update_null_generation count ai).p0
      = cts.p0 + ((((ai.trg_sentence.length : ℤ) - 1 : ℤ) : ℚ) - 2 * (cts.null : ℚ)) * count ∧
    (cts.update_null_generation count ai).null = cts.null :=
  ⟨rfl, rfl, rfl⟩

/-! ## Bridging the code's candidate queries with the spec's wording -/

/-- The code's countdown `previous_cept` equals the spec's "nearest earlier
source position with nonzero fertility". -/
lemma previous_cept_eq_spec (ai : AlignmentInfo) (j : ℕ) (h : ai.alignOf j ≠ 0) :
    ai.previous_cept j = spec_previous_cept ai j := by
  rw [AlignmentInfo.previous_cept, prevCeptLoop_eq_max?, spec_previous_cept,
    show ai.alignOf j - 1 + 1 = ai.alignOf j by omega]

/-- The code's head test (first element of the tablet) matches the spec's
"minimal position of the tablet". -/
lemma is_head_word_iff (ai : AlignmentInfo) (j : ℕ) (h1 : 1 ≤ j)
    (h2 : j < ai.trg_sentence.length) :
    ai.is_head_word j = true ↔ ∀ p ∈ ai.cepts (ai.alignOf j), j ≤ p := by
  rw [AlignmentInfo.is_head_word, decide_eq_true_eq]
  exact head?_eq_some_iff_min (cepts_pairwise ai _) (mem_cepts_self ai h1 h2)

/-- The code's "element before `j` in the tablet" matches the spec's
"greatest tablet position smaller than `j`" for non-head positions. -/
lemma previous_in_tablet_eq_spec (ai : AlignmentInfo) (j : ℕ) (h1 : 1 ≤ j)
    (h2 : j < ai.trg_sentence.length) (hh : ¬ ai.is_head_word j) :
    ai.previous_in_tablet j = spec_previous_in_tablet ai j := by
  rw [AlignmentInfo.previous_in_tablet, spec_previous_in_tablet]
  apply getD_indexOf_pred (cepts_pairwise _ _) (mem_cepts_self _ h1 h2)
  intro hcon
  apply hh
  rw [AlignmentInfo.is_head_word, hcon]
  simp

/-! ## Claim theorems -/

/-- Claim C3: for every alignment candidate and target position `j`, the
distortion factor of the score is exactly one of three disjoint cases:
1 when `j` is NULL-aligned; the head-distortion entry at displacement
`j - centerOfCept(previousCept)` (the previous cept being the nearest
earlier source position with nonzero fertility, its center the ceiling of
its tablet mean, 0 with the absent source-class key when there is no
previous cept) keyed by the previous cept's source class and the target
class when `j` heads its tablet; and the non-head entry at `j` minus the
previous position in the same tablet keyed by the target class otherwise. -/
theorem claim3_distortion_cases (md : Model) (ai : AlignmentInfo) (j : ℕ)
    (h1 : 1 ≤ j) (h2 : j < ai.trg_sentence.length) :
    distortion_term md ai j = spec_distortion_factor md ai j := by
  rw [distortion_term, spec_distortion_factor]
  by_cases h0 : ai.alignOf j = 0
  · rw [if_pos h0, if_pos h0]
  · rw [if_neg h0, if_neg h0]
    by_cases hh : ai.is_head_word j
    · have hmin : ∀ p ∈ ai.cepts (ai.alignOf j), j ≤ p :=
        (is_head_word_iff ai j h1 h2).mp hh
      rw [if_pos hh, if_pos hmin, previous_cept_eq_spec ai j h0]
      cases hpcv : spec_previous_cept ai j with
      | none => simp [AlignmentInfo.center_of_cept]
      | some pc =>
        cases hw : ai.src_sentence.getD pc none with
        | none =>
          rw [List.getD_eq_getElem?_getD] at hw
          simp [wordClassOf, hw]
        | some w =>
          rw [List.getD_eq_getElem?_getD] at hw
          cases hcl : md.src_classes.lookup w with
          | none => simp [wordClassOf, hw, hcl]
          | some c => simp [wordClassOf, hw, hcl, AlignmentInfo.center_of_cept]
    · have hmin : ¬ ∀ p ∈ ai.cepts (ai.alignOf j), j ≤ p := fun hc =>
        hh ((is_head_word_iff ai j h1 h2).mpr hc)
      rw [if_neg hh, if_neg hmin, previous_in_tablet_eq_spec ai j h1 h2 hh]

/-- Concrete candidate used to witness claim C3. -/
def claim3ai : AlignmentInfo where
  src_sentence := [none, some 1, some 2]
  trg_sentence := [0, 7, 8, 9]
  alignment := [0, 1, 1, 2]

/-- Concrete model used to witness claim C3. -/
def claim3md : Model where
  translation_table := fun _ _ => 1 / 2
  fertility_table := fun _ _ => 1 / 2
  p1 := 1 / 2
  head_distortion_table := fun _ _ _ => 1 / 4
  non_head_distortion_table := fun _ _ => 1 / 8
  alignment_table := fun _ _ _ _ => 1 / 2
  src_classes := [(1, 10), (2, 20)]
  trg_classes := [(7, 30), (8, 40), (9, 50)]

/-- Witness for claim C3 at a concrete candidate and position. -/
theorem claim3_witness :
    distortion_term claim3md claim3ai 2 = spec_distortion_factor claim3md claim3ai 2 :=
  claim3_distortion_cases claim3md claim3ai 2 (by decide) (by decide)

/-- The reestimated `p1` is always inside `[MIN_PROB, 1 - MIN_PROB]`. -/
lemma p1_reestimate_bounds (md : Model) (counts : Counts) :
    MIN_PROB ≤ (maximize_null_generation_probabilities md counts).p1 ∧
    (maximize_null_generation_probabilities md counts).p1 ≤ 1 - MIN_PROB := by
  rw [maximize_null_generation_probabilities]
  constructor
  · apply le_min (le_max_right _ _)
    norm_num [MIN_PROB]
  · exact min_le_right _ _

/-- Claim C6: after every M step, `p1` equals the count ratio floored at
`MIN_PROB` and clipped at `1 - MIN_PROB`, hence lies in
`[MIN_PROB, 1 - MIN_PROB]`, and the `p0` used by scoring is derived as
`1 - p1`, so `p0 + p1 = 1` exactly. -/
theorem claim6_p1_reestimation (md : Model) (counts : Counts) :
    (maximize_null_generation_probabilities md counts).p1
      = min (max (counts.p1 / (counts.p1 + counts.p0)) MIN_PROB) (1 - MIN_PROB) ∧
    MIN_PROB ≤ (maximize_null_generation_probabilities md counts).p1 ∧
    (maximize_null_generation_probabilities md counts).p1 ≤ 1 - MIN_PROB ∧
    scoring_p0 (maximize_null_generation_probabilities md counts)
      + (maximize_null_generation_probabilities md counts).p1 = 1 ∧
    ∀ (sampler : List (Option Word) → List Word → List AlignmentInfo)
      (corpus : List (List Word × List Word)) (md' : Model),
      train sampler md corpus = some md' →
      MIN_PROB ≤ md'.p1 ∧ md'.p1 ≤ 1 - MIN_PROB ∧ scoring_p0 md' + md'.p1 = 1 := by
  refine ⟨?_, (p1_reestimate_bounds md counts).1, (p1_reestimate_bounds md counts).2,
    ?_, ?_⟩
  · rfl
  · rw [scoring_p0]; ring
  · intro sampler corpus md' h
    rw [train] at h
    cases hc : corpus.foldlM (e_step_sentence sampler md) Counts.initial with
    | none => rw [hc] at h; simp at h
    | some counts' =>
      rw [hc] at h
      have hmd : maximize_null_generation_probabilities
          (maximize_fertility_probabilities
            (maximize_distortion_probabilities
              (maximize_lexical_translation_probabilities
                { reset_probabilities md with alignment_table := md.alignment_table }
                counts') counts') counts') counts' = md' := by
        simpa using h
      subst hmd
      refine ⟨(p1_reestimate_bounds _ _).1, (p1_reestimate_bounds _ _).2, ?_⟩
      rw [scoring_p0]; ring

/-- Claim C7: one call of the training step carries the alignment table
over bit-identically; it is excluded from re-estimation. -/
theorem claim7_alignment_table_immutable
    (sampler : List (Option Word) → List Word → List AlignmentInfo)
    (md : Model) (corpus : List (List Word × List Word)) (md' : Model)
    (h : train sampler md corpus = some md') :
    md'.alignment_table = md.alignment_table := by
  rw [train] at h
  cases hc : corpus.foldlM (e_step_sentence sampler md) Counts.initial with
  | none => rw [hc] at h; simp at h
  | some counts =>
    rw [hc] at h
    have hmd : maximize_null_generation_probabilities
        (maximize_fertility_probabilities
          (maximize_distortion_probabilities
            (maximize_lexical_translation_probabilities
              { reset_probabilities md with alignment_table := md.alignment_table }
              counts) counts) counts) counts = md' := by
      simpa using h
    subst hmd
    rfl

/-- Concrete model used to witness claim C7. -/
def claim7md : Model where
  translation_table := fun _ _ => 1 / 2
  fertility_table := fun _ _ => 1 / 2
  p1 := 1 / 3
  head_distortion_table := fun _ _ _ => 1 / 4
  non_head_distortion_table := fun _ _ => 1 / 8
  alignment_table := fun i j l m => ((i + 2 * j + 3 * l + 5 * m : ℕ) : ℚ)
  src_classes := [(1, 10)]
  trg_classes := [(7, 30)]

/-- The model produced by one training step on the empty corpus, used to
witness claim C7. -/
def claim7result : Model :=
  maximize_null_generation_probabilities
    (maximize_fertility_probabilities
      (maximize_distortion_probabilities
        (maximize_lexical_translation_probabilities
          { reset_probabilities claim7md with alignment_table := claim7md.alignment_table }
          Counts.initial) Counts.initial) Counts.initial) Counts.initial

/-- Witness for claim C7 on a concrete training call. -/
theorem claim7_witness : claim7result.alignment_table = claim7md.alignment_table :=
  claim7_alignment_table_immutable (fun _ _ => []) claim7md [] claim7result rfl

/-- Claim C10: the score is floored at the strictly positive `MIN_PROB`,
so the total probability of a non-empty candidate set is strictly positive
and the normalization divisor is never zero. -/
theorem claim10_score_floor :
    (0 : ℚ) < MIN_PROB ∧
    (∀ (md : Model) (ai : AlignmentInfo) (r : ℚ),
      prob_t_a_given_s md ai = some r → MIN_PROB ≤ r) ∧
    (∀ (md : Model) (l : List AlignmentInfo) (total : ℚ), l ≠ [] →
      prob_of_alignments md l = some total → 0 < total ∧ total ≠ 0) := by
  refine ⟨min_prob_pos, fun md ai r h => prob_t_a_given_s_ge_min md ai h, ?_⟩
  intro md l total hne h
  rw [prob_of_alignments] at h
  have hacc := (prob_of_alignments_acc md l 0 total h).2 hne
  have : 0 < total := by linarith [min_prob_pos]
  exact ⟨this, ne_of_gt this⟩

/-- Concrete candidate used to witness claim C10. -/
def claim10ai : AlignmentInfo where
  src_sentence := [none, some 3]
  trg_sentence := [0, 5]
  alignment := [0, 1]

/-- Concrete model used to witness claim C10. -/
def claim10md : Model where
  translation_table := fun _ _ => 1 / 2
  fertility_table := fun _ _ => 1 / 2
  p1 := 1 / 2
  head_distortion_table := fun _ _ _ => 1 / 2
  non_head_distortion_table := fun _ _ => 1 / 2
  alignment_table := fun _ _ _ _ => 1 / 2
  src_classes := []
  trg_classes := [(5, 0)]

/-- Evaluation of the null-generation factor at the claim-C10 example. -/
lemma claim10_ngt : null_generation_term claim10md claim10ai = some (1 / 2) := by
  rw [null_generation_term]
  norm_num [zpowQ, scoring_p0, MIN_PROB, List.range',
    show claim10md.p1 = 1 / 2 from rfl,
    show claim10ai.trg_sentence.length = 2 from rfl,
    show AlignmentInfo.fertility_of_i claim10ai 0 = 0 from by decide]

/-- Evaluation of the fertility factor at the claim-C10 example. -/
lemma claim10_ft : fertility_term claim10md claim10ai = 1 / 2 := by
  rw [fertility_term]
  norm_num [List.range', fertility_loop, MIN_PROB, Nat.factorial,
    show claim10ai.src_sentence.length = 2 from rfl,
    show AlignmentInfo.fertility_of_i claim10ai 1 = 1 from by decide,
    show ∀ x, claim10md.fertility_table 1 x = 1 / 2 from fun _ => rfl]

/-- Evaluation of the distortion factor at the claim-C10 example. -/
lemma claim10_dist : distortion_term claim10md claim10ai 1 = some (1 / 2) := by
  rw [distortion_term]
  norm_num [show AlignmentInfo.alignOf claim10ai 1 = 1 from by decide,
    show AlignmentInfo.is_head_word claim10ai 1 = true from by decide,
    show AlignmentInfo.previous_cept claim10ai 1 = none from by decide,
    show claim10ai.trg_sentence[1]?.getD 0 = 5 from rfl,
    show List.lookup 5 claim10md.trg_classes = some 0 from rfl,
    show ∀ a b c, claim10md.head_distortion_table a b c = 1 / 2 from fun _ _ _ => rfl,
    AlignmentInfo.center_of_cept]

/-- Evaluation of the position loop at the claim-C10 example. -/
lemma claim10_loop :
    score_positions claim10md claim10ai [1] (1 / 4) = some (1 / 16) := by
  rw [score_positions]
  norm_num [lexical_translation_term, MIN_PROB, claim10_dist, score_positions,
    show ∀ a b, claim10md.translation_table a b = 1 / 2 from fun _ _ => rfl]

/-- Evaluation of the score at the claim-C10 example. -/
lemma claim10_eval : prob_t_a_given_s claim10md claim10ai = some (1 / 16) := by
  rw [prob_t_a_given_s, claim10_ngt]
  norm_num [MIN_PROB, claim10_ft, List.range',
    show claim10ai.trg_sentence.length = 2 from rfl]
  exact claim10_loop

/-- Evaluation of the candidate-set total at the claim-C10 example. -/
lemma claim10_total : prob_of_alignments claim10md [claim10ai] = some (1 / 16) := by
  rw [prob_of_alignments]
  simp [claim10_eval]

/-- Witness for claim C10 on a concrete candidate and candidate set. -/
theorem claim10_witness :
    MIN_PROB ≤ (1 / 16 : ℚ) ∧ (0 : ℚ) < 1 / 16 ∧ (1 / 16 : ℚ) ≠ 0 :=
  ⟨claim10_score_floor.2.1 claim10md claim10ai (1 / 16) claim10_eval,
   (claim10_score_floor.2.2 claim10md [claim10ai] (1 / 16)
     (List.cons_ne_nil _ _) claim10_total).1,
   (claim10_score_floor.2.2 claim10md [claim10ai] (1 / 16)
     (List.cons_ne_nil _ _) claim10_total).2⟩

/-- Concrete model used to witness claim C6. -/
def claim6md : Model where
  translation_table := fun _ _ => 1 / 2
  fertility_table := fun _ _ => 1 / 2
  p1 := 2 / 3
  head_distortion_table := fun _ _ _ => 1 / 4
  non_head_distortion_table := fun _ _ => 1 / 8
  alignment_table := fun _ _ _ _ => 1 / 2
  src_classes := []
  trg_classes := []

/-- The model produced by one training step on the empty corpus, used to
witness claim C6. -/
def claim6result : Model :=
  maximize_null_generation_probabilities
    (maximize_fertility_probabilities
      (maximize_distortion_probabilities
        (maximize_lexical_translation_probabilities
          { reset_probabilities claim6md with alignment_table := claim6md.alignment_table }
          Counts.initial) Counts.initial) Counts.initial) Counts.initial

/-- Witness for claim C6 on a concrete training call. -/
theorem claim6_witness :
    MIN_PROB ≤ claim6result.p1 ∧ claim6result.p1 ≤ 1 - MIN_PROB ∧
    scoring_p0 claim6result + claim6result.p1 = 1 :=
  (claim6_p1_reestimation claim6md Counts.initial).2.2.2.2
    (fun _ _ => []) [] claim6result rfl

/-- Claim C9: when a word's class is missing from the supplied class
tables, both the scoring distortion factor and the distortion-count update
fail with a lookup error (`none`) rather than substituting a default:
first for a target word missing from the target-class table, then for a
previous-cept source word missing from the source-class table. -/
theorem claim9_missing_class_fails (md : Model) (ai : AlignmentInfo) (j : ℕ)
    (cts : Counts) (w : ℚ) (hnn : ai.alignOf j ≠ 0) :
    (md.trg_classes.lookup (ai.trg_sentence.getD j 0) = none →
      distortion_term md ai j = none ∧
      cts.update_distortion w ai j md.src_classes md.trg_classes = none) ∧
    (∀ (pc : ℕ) (w' : Word), ai.is_head_word j = true →
      ai.previous_cept j = some pc →
      ai.src_sentence.getD pc none = some w' →
      md.src_classes.lookup w' = none →
      distortion_term md ai j = none ∧
      cts.update_distortion w ai j md.src_classes md.trg_classes = none) := by
  constructor
  · intro hmiss
    rw [List.getD_eq_getElem?_getD] at hmiss
    constructor
    · rw [distortion_term, if_neg hnn]
      by_cases hh : ai.is_head_word j
      · rw [if_pos hh]
        cases hm : (match ai.previous_cept j with
            | some previous_cept =>
              (wordClassOf md.src_classes (ai.src_sentence.getD previous_cept none)).map some
            | none => some (none : Option ℤ)) with
        | none => rfl
        | some sc => simp [hmiss]
      · rw [if_neg hh]
        simp [hmiss]
    · rw [Counts.update_distortion, if_neg hnn]
      by_cases hh : ai.is_head_word j
      · rw [if_pos hh]
        cases hm : (match ai.previous_cept j with
            | some previous_cept =>
              (wordClassOf md.src_classes (ai.src_sentence.getD previous_cept none)).map some
            | none => some (none : Option ℤ)) with
        | none => rfl
        | some sc => simp [hmiss]
      · rw [if_neg hh]
        simp [hmiss]
  · intro pc w' hh hpc hword hmiss
    rw [List.getD_eq_getElem?_getD] at hword
    constructor
    · rw [distortion_term, if_neg hnn, if_pos hh]
      cases hm : (match ai.previous_cept j with
          | some previous_cept =>
            (wordClassOf md.src_classes (ai.src_sentence.getD previous_cept none)).map some
          | none => some (none : Option ℤ)) with
      | none => rfl
      | some sc =>
        exfalso
        rw [hpc] at hm
        simp [wordClassOf, hword, hmiss] at hm
    · rw [Counts.update_distortion, if_neg hnn, if_pos hh]
      cases hm : (match ai.previous_cept j with
          | some previous_cept =>
            (wordClassOf md.src_classes (ai.src_sentence.getD previous_cept none)).map some
          | none => some (none : Option ℤ)) with
      | none => rfl
      | some sc =>
        exfalso
        rw [hpc] at hm
        simp [wordClassOf, hword, hmiss] at hm

/-- Concrete candidate used to witness claim C9: position 2 heads the
tablet of source position 2, whose previous cept is source position 1. -/
def claim9ai : AlignmentInfo where
  src_sentence := [none, some 3, some 4]
  trg_sentence := [0, 8, 9]
  alignment := [0, 1, 2]

/-- Concrete model with empty class tables used to witness claim C9. -/
def claim9md : Model where
  translation_table := fun _ _ => 1 / 2
  fertility_table := fun _ _ => 1 / 2
  p1 := 1 / 2
  head_distortion_table := fun _ _ _ => 1 / 2
  non_head_distortion_table := fun _ _ => 1 / 2
  alignment_table := fun _ _ _ _ => 1 / 2
  src_classes := []
  trg_classes := []

/-- Witness for claim C9 at a concrete candidate with missing classes. -/
theorem claim9_witness :
    (distortion_term claim9md claim9ai 2 = none ∧
      Counts.initial.update_distortion 1 claim9ai 2 claim9md.src_classes
        claim9md.trg_classes = none) ∧
    (distortion_term claim9md claim9ai 2 = none ∧
      Counts.initial.update_distortion 1 claim9ai 2 claim9md.src_classes
        claim9md.trg_classes = none) :=
  ⟨(claim9_missing_class_fails claim9md claim9ai 2 Counts.initial 1
      (by decide)).1 (by decide),
   (claim9_missing_class_fails claim9md claim9ai 2 Counts.initial 1
      (by decide)).2 1 3 (by decide) (by decide) (by decide) (by decide)⟩

/-- The running maximum of `longest_target_sentence_length`: it dominates
the start value and every element, and is attained by one of them. -/
lemma foldl_max_spec :
    ∀ (l : List (List Word × List Word)) (a : ℕ),
      a ≤ l.foldl (fun mx pr => max mx pr.2.length) a ∧
      (∀ pr ∈ l, pr.2.length ≤ l.foldl (fun mx pr => max mx pr.2.length) a) ∧
      (l.foldl (fun mx pr => max mx pr.2.length) a = a ∨
        ∃ pr ∈ l, pr.2.length = l.foldl (fun mx pr => max mx pr.2.length) a) := by
  intro l
  induction l with
  | nil => intro a; simp
  | cons x xs ih =>
    intro a
    rw [List.foldl_cons]
    obtain ⟨ih1, ih2, ih3⟩ := ih (max a x.2.length)
    refine ⟨le_trans (le_max_left _ _) ih1, ?_, ?_⟩
    · intro pr hpr
      rcases List.mem_cons.mp hpr with rfl | hpr
      · exact le_trans (le_max_right _ _) ih1
      · exact ih2 pr hpr
    · rcases ih3 with heq | ⟨pr, hpr, hval⟩
      · rcases max_choice a x.2.length with hm | hm
        · left; rw [heq, hm]
        · right; exact ⟨x, List.mem_cons_self x xs, by rw [heq, hm]⟩
      · right; exact ⟨pr, List.mem_cons_of_mem x hpr, hval⟩

/-- Claim C5: uniform distortion initialization computes the longest
target sentence length `max_m` over the corpus, writes
`1 / (2 * (max_m - 1))` at every displacement in
`[-(max_m - 1), max_m - 1] \ {0}` and every class combination of both
distortion tables (also when the value is below the floor, which only
warns), and leaves a freshly reset model at the floor when `max_m ≤ 1`. -/
theorem claim5_uniform_initialization (md : Model)
    (corpus : List (List Word × List Word)) :
    (∀ pr ∈ corpus, pr.2.length ≤ longest_target_sentence_length corpus) ∧
    (longest_target_sentence_length corpus = 0 ∨
      ∃ pr ∈ corpus, pr.2.length = longest_target_sentence_length corpus) ∧
    (1 < longest_target_sentence_length corpus →
      uniform_distortion_prob corpus
        = 1 / (2 * ((longest_target_sentence_length corpus : ℚ) - 1))) ∧
    (longest_target_sentence_length corpus ≤ 1 →
      uniform_distortion_prob corpus = MIN_PROB) ∧
    (∀ (dj sc tc : ℤ), dj ≠ 0 →
      dj.natAbs < longest_target_sentence_length corpus →
      sc ∈ get_unique_word_classes md.src_classes →
      tc ∈ get_unique_word_classes md.trg_classes →
      (set_uniform_distortion_probabilities md corpus).head_distortion_table
          dj (some sc) tc = uniform_distortion_prob corpus ∧
      (set_uniform_distortion_probabilities md corpus).non_head_distortion_table
          dj tc = uniform_distortion_prob corpus) ∧
    (uniform_distortion_warns corpus →
      ∀ (dj tc : ℤ), dj ≠ 0 →
        dj.natAbs < longest_target_sentence_length corpus →
        tc ∈ get_unique_word_classes md.trg_classes →
        (set_uniform_distortion_probabilities md corpus).non_head_distortion_table
          dj tc = uniform_distortion_prob corpus) ∧
    (longest_target_sentence_length corpus ≤ 1 →
      ∀ (dj : ℤ) (sc : Option ℤ) (tc : ℤ),
        (set_uniform_distortion_probabilities
          (reset_probabilities md) corpus).head_distortion_table dj sc tc = MIN_PROB ∧
        (set_uniform_distortion_probabilities
          (reset_probabilities md) corpus).non_head_distortion_table dj tc = MIN_PROB) := by
  obtain ⟨h1, h2, h3⟩ := foldl_max_spec corpus 0
  refine ⟨h2, ?_, ?_, ?_, ?_, ?_, ?_⟩
  · rcases h3 with heq | hex
    · left; exact heq
    · right; exact hex
  · intro hgt
    rw [uniform_distortion_prob, if_neg (by omega)]
  · intro hle
    rw [uniform_distortion_prob, if_pos hle]
  · intro dj sc tc hdj habs hsc htc
    constructor
    · rw [set_uniform_distortion_probabilities]
      exact if_pos ⟨hdj, habs, hsc, htc⟩
    · rw [set_uniform_distortion_probabilities]
      exact if_pos ⟨hdj, habs, htc⟩
  · intro _ dj tc hdj habs htc
    rw [set_uniform_distortion_probabilities]
    exact if_pos ⟨hdj, habs, htc⟩
  · intro hle dj sc tc
    have hcond : ¬(dj ≠ 0 ∧ dj.natAbs < longest_target_sentence_length corpus) := by
      rintro ⟨hdj, habs⟩
      omega
    constructor
    · rw [set_uniform_distortion_probabilities]
      cases sc with
      | none => rfl
      | some c => exact if_neg (fun hcon => hcond ⟨hcon.1, hcon.2.1⟩)
    · rw [set_uniform_distortion_probabilities]
      exact if_neg (fun hcon => hcond ⟨hcon.1, hcon.2.1⟩)

/-- Concrete model used to witness claim C5. -/
def claim5md : Model where
  translation_table := fun _ _ => 1 / 2
  fertility_table := fun _ _ => 1 / 2
  p1 := 1 / 2
  head_distortion_table := fun _ _ _ => 1 / 2
  non_head_distortion_table := fun _ _ => 1 / 2
  alignment_table := fun _ _ _ _ => 1 / 2
  src_classes := [(1, 5)]
  trg_classes := [(2, 7)]

/-- Concrete corpus (longest target length 3) used to witness claim C5. -/
def claim5corpus : List (List Word × List Word) := [([], [9, 9, 9])]

/-- Witness for claim C5 at a concrete corpus and class tables. -/
theorem claim5_witness :
    (([], [9, 9, 9]) : List Word × List Word).2.length
      ≤ longest_target_sentence_length claim5corpus ∧
    uniform_distortion_prob claim5corpus
      = 1 / (2 * ((longest_target_sentence_length claim5corpus : ℚ) - 1)) ∧
    (set_uniform_distortion_probabilities claim5md claim5corpus).head_distortion_table
      1 (some 5) 7 = uniform_distortion_prob claim5corpus ∧
    (set_uniform_distortion_probabilities claim5md claim5corpus).non_head_distortion_table
      (-2) 7 = uniform_distortion_prob claim5corpus :=
  ⟨(claim5_uniform_initialization claim5md claim5corpus).1 _ (by decide),
   (claim5_uniform_initialization claim5md claim5corpus).2.2.1 (by decide),
   ((claim5_uniform_initialization claim5md claim5corpus).2.2.2.2.1 1 5 7
     (by decide) (by decide) (by decide) (by decide)).1,
   ((claim5_uniform_initialization claim5md claim5corpus).2.2.2.2.1 (-2) 5 7
     (by decide) (by decide) (by decide) (by decide)).2⟩

/-- Claim C1 (amended): after every reestimation every table entry (and
`p1`, and the derived `p0`) is at least `MIN_PROB`; after uniform
distortion initialization on a freshly reset model, every distortion entry
is at least `MIN_PROB` provided the uniform value itself is at least the
floor (which fails only for astronomically long target sentences, where
initialization still writes the below-floor value and merely warns). -/
theorem claim1_floor_invariant (md : Model) (corpus : List (List Word × List Word)) :
    (MIN_PROB ≤ uniform_distortion_prob corpus →
      (∀ (dj : ℤ) (sc : Option ℤ) (tc : ℤ),
        MIN_PROB ≤ (set_uniform_distortion_probabilities
          (reset_probabilities md) corpus).head_distortion_table dj sc tc) ∧
      (∀ (dj tc : ℤ),
        MIN_PROB ≤ (set_uniform_distortion_probabilities
          (reset_probabilities md) corpus).non_head_distortion_table dj tc)) ∧
    (∀ (sampler : List (Option Word) → List Word → List AlignmentInfo)
      (corpus' : List (List Word × List Word)) (md' : Model),
      train sampler md corpus' = some md' →
      (∀ (t : Word) (s : Option Word), MIN_PROB ≤ md'.translation_table t s) ∧
      (∀ (f : ℕ) (s : Option Word), MIN_PROB ≤ md'.fertility_table f s) ∧
      (∀ (dj : ℤ) (sc : Option ℤ) (tc : ℤ),
        MIN_PROB ≤ md'.head_distortion_table dj sc tc) ∧
      (∀ (dj tc : ℤ), MIN_PROB ≤ md'.non_head_distortion_table dj tc) ∧
      MIN_PROB ≤ md'.p1 ∧ MIN_PROB ≤ 1 - md'.p1) := by
  constructor
  · intro hge
    constructor
    · intro dj sc tc
      rw [set_uniform_distortion_probabilities]
      cases sc with
      | none => exact le_refl _
      | some c =>
        by_cases hcond : dj ≠ 0 ∧
            dj.natAbs < longest_target_sentence_length corpus ∧
            c ∈ get_unique_word_classes (reset_probabilities md).src_classes ∧
            tc ∈ get_unique_word_classes (reset_probabilities md).trg_classes
        · exact le_of_le_of_eq hge (if_pos hcond).symm
        · exact le_of_eq (if_neg hcond).symm
    · intro dj tc
      rw [set_uniform_distortion_probabilities]
      by_cases hcond : dj ≠ 0 ∧
          dj.natAbs < longest_target_sentence_length corpus ∧
          tc ∈ get_unique_word_classes (reset_probabilities md).trg_classes
      · exact le_of_le_of_eq hge (if_pos hcond).symm
      · exact le_of_eq (if_neg hcond).symm
  · intro sampler corpus' md' h
    rw [train] at h
    cases hc : corpus'.foldlM (e_step_sentence sampler md) Counts.initial with
    | none => rw [hc] at h; simp at h
    | some counts =>
      rw [hc] at h
      have hmd : maximize_null_generation_probabilities
          (maximize_fertility_probabilities
            (maximize_distortion_probabilities
              (maximize_lexical_translation_probabilities
                { reset_probabilities md with alignment_table := md.alignment_table }
                counts) counts) counts) counts = md' := by
        simpa using h
      subst hmd
      refine ⟨?_, ?_, ?_, ?_, (p1_reestimate_bounds _ _).1, ?_⟩
      · intro t s
        show MIN_PROB ≤ (maximize_lexical_translation_probabilities _ counts).translation_table t s
        rw [maximize_lexical_translation_probabilities]
        by_cases hc0 : counts.t_given_s t s ≠ 0
        · exact le_of_le_of_eq (le_max_right _ _) (if_pos hc0).symm
        · exact le_of_eq (if_neg hc0).symm
      · intro f s
        show MIN_PROB ≤ (maximize_fertility_probabilities _ counts).fertility_table f s
        rw [maximize_fertility_probabilities]
        by_cases hc0 : counts.fertility f s ≠ 0
        · exact le_of_le_of_eq (le_max_right _ _) (if_pos hc0).symm
        · exact le_of_eq (if_neg hc0).symm
      · intro dj sc tc
        show MIN_PROB ≤
          (maximize_distortion_probabilities _ counts).head_distortion_table dj sc tc
        rw [maximize_distortion_probabilities]
        by_cases hc0 : counts.head_distortion dj sc tc ≠ 0
        · exact le_of_le_of_eq (le_max_right _ _) (if_pos hc0).symm
        · exact le_of_eq (if_neg hc0).symm
      · intro dj tc
        show MIN_PROB ≤
          (maximize_distortion_probabilities _ counts).non_head_distortion_table dj tc
        rw [maximize_distortion_probabilities]
        by_cases hc0 : counts.non_head_distortion dj tc ≠ 0
        · exact le_of_le_of_eq (le_max_right _ _) (if_pos hc0).symm
        · exact le_of_eq (if_neg hc0).symm
      · have := (p1_reestimate_bounds (maximize_fertility_probabilities
          (maximize_distortion_probabilities
            (maximize_lexical_translation_probabilities
              { reset_probabilities md with alignment_table := md.alignment_table }
              counts) counts) counts) counts).2
        linarith [min_prob_pos]

/-- Concrete model used for the claim C1 counterexample. -/
def claim1md : Model where
  translation_table := fun _ _ => 1 / 2
  fertility_table := fun _ _ => 1 / 2
  p1 := 1 / 2
  head_distortion_table := fun _ _ _ => 1 / 2
  non_head_distortion_table := fun _ _ => 1 / 2
  alignment_table := fun _ _ _ _ => 1 / 2
  src_classes := [(1, 5)]
  trg_classes := [(2, 0)]

/-- A corpus whose longest target sentence has `10^12` words, driving the
uniform distortion value below the floor. -/
def claim1corpus : List (List Word × List Word) :=
  [([], List.replicate 1000000000000 0)]

/-- The longest target sentence length of the counterexample corpus. -/
lemma claim1corpus_longest :
    longest_target_sentence_length claim1corpus = 1000000000000 := by
  rw [claim1corpus, longest_target_sentence_length, List.foldl_cons, List.foldl_nil,
    List.length_replicate]
  exact Nat.zero_max 1000000000000

/-- Counterexample to claim C1 as stated: on a corpus with a `10^12`-word
target sentence, uniform distortion initialization (on a freshly reset
model) writes an entry strictly below the probability floor. -/
theorem claim1_counterexample :
    (set_uniform_distortion_probabilities (reset_probabilities claim1md)
      claim1corpus).non_head_distortion_table 1 0 < MIN_PROB := by
  rw [set_uniform_distortion_probabilities]
  dsimp only
  rw [if_pos ⟨by decide, by rw [claim1corpus_longest]; decide, by decide⟩]
  rw [uniform_distortion_prob, claim1corpus_longest, if_neg (by norm_num)]
  rw [MIN_PROB]
  norm_num

/-- Concrete model used to witness claim C1. -/
def claim1wmd : Model where
  translation_table := fun _ _ => 1 / 2
  fertility_table := fun _ _ => 1 / 2
  p1 := 1 / 2
  head_distortion_table := fun _ _ _ => 1 / 2
  non_head_distortion_table := fun _ _ => 1 / 2
  alignment_table := fun _ _ _ _ => 1 / 2
  src_classes := [(1, 5)]
  trg_classes := [(2, 7)]

/-- A small corpus (longest target length 2) used to witness claim C1. -/
def claim1wcorpus : List (List Word × List Word) := [([], [9, 9])]

/-- The model produced by one training step on the empty corpus, used to
witness claim C1. -/
def claim1wresult : Model :=
  maximize_null_generation_probabilities
    (maximize_fertility_probabilities
      (maximize_distortion_probabilities
        (maximize_lexical_translation_probabilities
          { reset_probabilities claim1wmd with alignment_table := claim1wmd.alignment_table }
          Counts.initial) Counts.initial) Counts.initial) Counts.initial

/-- Witness for claim C1 at a small corpus and a concrete training call. -/
theorem claim1_witness :
    MIN_PROB ≤ (set_uniform_distortion_probabilities (reset_probabilities claim1wmd)
      claim1wcorpus).head_distortion_table 1 (some 5) 7 ∧
    MIN_PROB ≤ claim1wresult.translation_table 0 none ∧
    MIN_PROB ≤ claim1wresult.p1 ∧ MIN_PROB ≤ 1 - claim1wresult.p1 :=
  ⟨((claim1_floor_invariant claim1wmd claim1wcorpus).1 (by
      rw [uniform_distortion_prob]
      norm_num [claim1wcorpus, longest_target_sentence_length, MIN_PROB])).1 1 (some 5) 7,
   ((claim1_floor_invariant claim1wmd claim1wcorpus).2
      (fun _ _ => []) [] claim1wresult rfl).1 0 none,
   ((claim1_floor_invariant claim1wmd claim1wcorpus).2
      (fun _ _ => []) [] claim1wresult rfl).2.2.2.2.1,
   ((claim1_floor_invariant claim1wmd claim1wcorpus).2
      (fun _ _ => []) [] claim1wresult rfl).2.2.2.2.2⟩

/-- The incremental combination loop of `null_generation_term` multiplies
its start value by `(m - phi0) choose phi0`. -/
lemma ngt_loop_eq_choose (ai : AlignmentInfo) (start : ℚ)
    (hlen : 1 ≤ ai.trg_sentence.length) :
    (List.range' 1 (ai.fertility_of_i 0)).foldl
      (fun v (i : ℕ) => v * (((((ai.trg_sentence.length : ℤ) - 1 : ℤ) : ℚ)
        - (ai.fertility_of_i 0 : ℚ) - (i : ℚ) + 1) / (i : ℚ))) start
    = start * ((ai.trg_sentence.length - 1 - ai.fertility_of_i 0).choose
        (ai.fertility_of_i 0) : ℚ) := by
  have hnfle : ai.fertility_of_i 0 ≤ ai.trg_sentence.length - 1 := cepts_length_le ai 0
  rw [foldl_mul_eq_prod
    (fun i : ℕ => ((((ai.trg_sentence.length : ℤ) - 1 : ℤ) : ℚ)
      - (ai.fertility_of_i 0 : ℚ) - (i : ℚ) + 1) / (i : ℚ))]
  have hfun : (fun i : ℕ => ((((ai.trg_sentence.length : ℤ) - 1 : ℤ) : ℚ)
        - (ai.fertility_of_i 0 : ℚ) - (i : ℚ) + 1) / (i : ℚ))
      = (fun i : ℕ => (((ai.trg_sentence.length - 1 - ai.fertility_of_i 0 : ℕ) : ℚ)
        - (i : ℚ) + 1) / (i : ℚ)) := by
    funext i
    congr 1
    have h1 : ((ai.trg_sentence.length - 1 - ai.fertility_of_i 0 : ℕ) : ℚ)
        = (ai.trg_sentence.length : ℚ) - 1 - (ai.fertility_of_i 0 : ℚ) := by
      push_cast [Nat.cast_sub hnfle, Nat.cast_sub hlen]
      ring
    rw [h1]
    push_cast
    ring
  rw [hfun, prod_incr_eq_choose]

/-- Claim C4 (amended): whenever the power part
`p1^phi0 * p0^(m - 2*phi0)` is at least the floor, the null-generation
factor equals `p1^phi0 * p0^(m - 2*phi0) * C(m - phi0, phi0)` with the
combination computed incrementally; when the power part is below the floor
the term returns the floor itself instead. -/
theorem claim4_null_generation_value (md : Model) (ai : AlignmentInfo) (v : ℚ)
    (hwf : ai.trg_sentence ≠ [])
    (h : null_generation_term md ai = some v)
    (hge : MIN_PROB ≤ md.p1 ^ ai.fertility_of_i 0 *
      (scoring_p0 md) ^ ((ai.trg_sentence.length : ℤ) - 1 - 2 * (ai.fertility_of_i 0 : ℤ))) :
    v = md.p1 ^ ai.fertility_of_i 0 *
      (scoring_p0 md) ^ ((ai.trg_sentence.length : ℤ) - 1 - 2 * (ai.fertility_of_i 0 : ℤ)) *
      ((ai.trg_sentence.length - 1 - ai.fertility_of_i 0).choose
        (ai.fertility_of_i 0) : ℚ) := by
  have hlen : 1 ≤ ai.trg_sentence.length := List.length_pos.mpr hwf
  rw [null_generation_term] at h
  cases hz : zpowQ (scoring_p0 md)
      ((ai.trg_sentence.length : ℤ) - 1 - 2 * (ai.fertility_of_i 0 : ℤ)) with
  | none => rw [hz] at h; simp at h
  | some powp0 =>
  rw [hz] at h
  rw [zpowQ] at hz
  by_cases hbad : scoring_p0 md = 0 ∧
      ((ai.trg_sentence.length : ℤ) - 1 - 2 * (ai.fertility_of_i 0 : ℤ)) < 0
  · rw [if_pos hbad] at hz
    cases hz
  · rw [if_neg hbad] at hz
    have hpow : (scoring_p0 md)
        ^ ((ai.trg_sentence.length : ℤ) - 1 - 2 * (ai.fertility_of_i 0 : ℤ)) = powp0 := by
      simpa using hz
    have h2 : (if 1 * (md.p1 ^ ai.fertility_of_i 0 * powp0) < MIN_PROB
        then some MIN_PROB
        else some ((List.range' 1 (ai.fertility_of_i 0)).foldl
          (fun v (i : ℕ) => v * (((((ai.trg_sentence.length : ℤ) - 1 : ℤ) : ℚ)
            - (ai.fertility_of_i 0 : ℚ) - (i : ℚ) + 1) / (i : ℚ)))
          (1 * (md.p1 ^ ai.fertility_of_i 0 * powp0)))) = some v := h
    clear h
    split_ifs at h2 with hlt
    · exfalso
      rw [← hpow] at hlt
      have heq : 1 * (md.p1 ^ ai.fertility_of_i 0 *
          (scoring_p0 md) ^ ((ai.trg_sentence.length : ℤ) - 1 - 2 * (ai.fertility_of_i 0 : ℤ)))
          = md.p1 ^ ai.fertility_of_i 0 *
            (scoring_p0 md) ^ ((ai.trg_sentence.length : ℤ) - 1 - 2 * (ai.fertility_of_i 0 : ℤ)) := by
        ring
      rw [heq] at hlt
      linarith
    · have hv : v = (List.range' 1 (ai.fertility_of_i 0)).foldl
          (fun v (i : ℕ) => v * (((((ai.trg_sentence.length : ℤ) - 1 : ℤ) : ℚ)
            - (ai.fertility_of_i 0 : ℚ) - (i : ℚ) + 1) / (i : ℚ)))
          (1 * (md.p1 ^ ai.fertility_of_i 0 * powp0)) := by
        simpa using h2.symm
      rw [hv, ngt_loop_eq_choose ai _ hlen, ← hpow]
      ring

/-- Model with a user-supplied `p1` of `10^-13`, below the floor, for the
claim C4 counterexample. -/
def claim4md : Model where
  translation_table := fun _ _ => 1 / 2
  fertility_table := fun _ _ => 1 / 2
  p1 := 1 / 10000000000000
  head_distortion_table := fun _ _ _ => 1 / 2
  non_head_distortion_table := fun _ _ => 1 / 2
  alignment_table := fun _ _ _ _ => 1 / 2
  src_classes := []
  trg_classes := []

/-- Candidate whose NULL fertility is 1 over a two-word target sentence,
for the claim C4 counterexample. -/
def claim4ai : AlignmentInfo where
  src_sentence := [none, some 1]
  trg_sentence := [0, 5, 5]
  alignment := [0, 0, 1]

/-- Counterexample to claim C4 as stated: with `p1 = 10^-13` the power
part falls below the floor, so the null-generation factor returns the
floor `10^-12` instead of the claimed closed form `10^-13`. -/
theorem claim4_counterexample :
    null_generation_term claim4md claim4ai = some MIN_PROB ∧
    MIN_PROB ≠ claim4md.p1 ^ claim4ai.fertility_of_i 0 *
      (scoring_p0 claim4md) ^ ((claim4ai.trg_sentence.length : ℤ) - 1
        - 2 * (claim4ai.fertility_of_i 0 : ℤ)) *
      ((claim4ai.trg_sentence.length - 1 - claim4ai.fertility_of_i 0).choose
        (claim4ai.fertility_of_i 0) : ℚ) := by
  constructor
  · rw [null_generation_term]
    norm_num [zpowQ, scoring_p0, MIN_PROB,
      show claim4md.p1 = 1 / 10000000000000 from rfl,
      show claim4ai.trg_sentence.length = 3 from rfl,
      show AlignmentInfo.fertility_of_i claim4ai 0 = 1 from by decide]
  · norm_num [scoring_p0, MIN_PROB,
      show claim4md.p1 = 1 / 10000000000000 from rfl,
      show claim4ai.trg_sentence.length = 3 from rfl,
      show AlignmentInfo.fertility_of_i claim4ai 0 = 1 from by decide]

/-- Model for the claim C4 witness (`p1 = 1/2`). -/
def claim4wmd : Model where
  translation_table := fun _ _ => 1 / 2
  fertility_table := fun _ _ => 1 / 2
  p1 := 1 / 2
  head_distortion_table := fun _ _ _ => 1 / 2
  non_head_distortion_table := fun _ _ => 1 / 2
  alignment_table := fun _ _ _ _ => 1 / 2
  src_classes := []
  trg_classes := []

/-- Candidate for the claim C4 witness (NULL fertility 1, two target
words). -/
def claim4wai : AlignmentInfo where
  src_sentence := [none, some 1]
  trg_sentence := [0, 5, 5]
  alignment := [0, 0, 1]

/-- Evaluation of the null-generation term at the claim C4 witness. -/
lemma claim4w_eval : null_generation_term claim4wmd claim4wai = some (1 / 2) := by
  rw [null_generation_term]
  norm_num [zpowQ, scoring_p0, MIN_PROB, List.range',
    show claim4wmd.p1 = 1 / 2 from rfl,
    show claim4wai.trg_sentence.length = 3 from rfl,
    show AlignmentInfo.fertility_of_i claim4wai 0 = 1 from by decide]

/-- Witness for claim C4 at a concrete candidate where the power part is
above the floor. -/
theorem claim4_witness :
    (1 / 2 : ℚ) = claim4wmd.p1 ^ claim4wai.fertility_of_i 0 *
      (scoring_p0 claim4wmd) ^ ((claim4wai.trg_sentence.length : ℤ) - 1
        - 2 * (claim4wai.fertility_of_i 0 : ℤ)) *
      ((claim4wai.trg_sentence.length - 1 - claim4wai.fertility_of_i 0).choose
        (claim4wai.fertility_of_i 0) : ℚ) :=
  claim4_null_generation_value claim4wmd claim4wai (1 / 2) (by decide) claim4w_eval
    (by norm_num [scoring_p0, MIN_PROB,
      show claim4wmd.p1 = 1 / 2 from rfl,
      show claim4wai.trg_sentence.length = 3 from rfl,
      show AlignmentInfo.fertility_of_i claim4wai 0 = 1 from by decide])

/-- Claim C2 (amended): the early abort of `prob_t_a_given_s` is safe —
whenever the score returns at all, it either equals the full four-factor
product, or it returns the floor in a situation where the full product is
itself below the floor.  (The claim's premise that every factor is at most
1 fails for the fertility factor; see the counterexample.) -/
theorem claim2_early_abort_safe (md : Model) (ai : AlignmentInfo) (r P : ℚ)
    (hT : ∀ t s, 0 ≤ md.translation_table t s ∧ md.translation_table t s ≤ 1)
    (hH : ∀ d s c, 0 ≤ md.head_distortion_table d s c ∧ md.head_distortion_table d s c ≤ 1)
    (hN : ∀ d c, 0 ≤ md.non_head_distortion_table d c ∧ md.non_head_distortion_table d c ≤ 1)
    (hF : ∀ f s, 0 ≤ md.fertility_table f s)
    (hr : prob_t_a_given_s md ai = some r)
    (hP : score_factors_product md ai = some P) :
    r = P ∨ (r = MIN_PROB ∧ P < MIN_PROB) := by
  rw [prob_t_a_given_s] at hr
  rw [score_factors_product] at hP
  cases hngt : null_generation_term md ai with
  | none => rw [hngt] at hr; simp at hr
  | some ngt =>
  rw [hngt] at hr hP
  cases hds : (List.range' 1 (ai.trg_sentence.length - 1)).mapM (distortion_term md ai) with
  | none => rw [hds] at hP; simp at hP
  | some ds =>
  rw [hds] at hP
  have hPval : ngt * fertility_term md ai *
      ((List.range' 1 (ai.trg_sentence.length - 1)).map
        (lexical_translation_term md ai)).prod * ds.prod = P := by
    simpa using hP
  have hngtB := null_generation_term_cases md ai hngt
  have hftn := fertility_term_nonneg md ai hF
  have hLmem : ∀ x ∈ (List.range' 1 (ai.trg_sentence.length - 1)).map
      (lexical_translation_term md ai), 0 ≤ x ∧ x ≤ 1 := by
    intro x hx
    obtain ⟨a, _, rfl⟩ := List.mem_map.mp hx
    simpa [lexical_translation_term] using hT _ _
  have hL := prod_mem_unit hLmem
  have hDmem : ∀ x ∈ ds, 0 ≤ x ∧ x ≤ 1 := by
    intro x hx
    obtain ⟨a, _, hfa⟩ := mapM_mem_of_eq_some hds x hx
    exact distortion_term_bounds md ai a hH hN hfa
  have hD := prod_mem_unit hDmem
  have h2 : (if 1 * ngt < MIN_PROB then some MIN_PROB
      else if 1 * ngt * fertility_term md ai < MIN_PROB then some MIN_PROB
      else score_positions md ai (List.range' 1 (ai.trg_sentence.length - 1))
        (1 * ngt * fertility_term md ai)) = some r := hr
  clear hr
  split_ifs at h2 with ha hb
  · -- abort right after the null-generation factor: it must be zero
    have hr0 : r = MIN_PROB := by simpa using h2.symm
    have hngt0 : ngt = 0 := hngtB.2 (by linarith)
    right
    refine ⟨hr0, ?_⟩
    rw [← hPval, hngt0]
    simpa using min_prob_pos
  · -- abort right after the fertility factor: the rest only attenuates
    have hr0 : r = MIN_PROB := by simpa using h2.symm
    right
    refine ⟨hr0, ?_⟩
    have hq : 0 ≤ 1 * ngt * fertility_term md ai := by
      have := hngtB.1
      positivity
    have hf2 := (unit_mul hL hD).2
    have hmul := mul_le_mul_of_nonneg_left hf2 hq
    rw [← hPval]
    rw [show ngt * fertility_term md ai *
          ((List.range' 1 (ai.trg_sentence.length - 1)).map
            (lexical_translation_term md ai)).prod * ds.prod
        = (1 * ngt * fertility_term md ai) *
          (((List.range' 1 (ai.trg_sentence.length - 1)).map
            (lexical_translation_term md ai)).prod * ds.prod) by ring]
    linarith
  · push_neg at hb
    have hq : 0 ≤ 1 * ngt * fertility_term md ai := by linarith [min_prob_pos]
    rcases score_positions_spec md ai hT hH hN
        (List.range' 1 (ai.trg_sentence.length - 1))
        (1 * ngt * fertility_term md ai) ds r hq hds h2 with hcase | ⟨hr0, hlt⟩
    · left
      rw [hcase, ← hPval]
      ring
    · right
      refine ⟨hr0, ?_⟩
      rw [← hPval]
      rw [show ngt * fertility_term md ai *
            ((List.range' 1 (ai.trg_sentence.length - 1)).map
              (lexical_translation_term md ai)).prod * ds.prod
          = 1 * ngt * fertility_term md ai *
            (((List.range' 1 (ai.trg_sentence.length - 1)).map
              (lexical_translation_term md ai)).prod * ds.prod) by ring]
      exact hlt

/-- Model whose fertility table is the constant 1 (a legitimate
probability value), used for the claim C2 counterexample. -/
def claim2cmd : Model where
  translation_table := fun _ _ => 1 / 2
  fertility_table := fun _ _ => 1
  p1 := 1 / 2
  head_distortion_table := fun _ _ _ => 1 / 2
  non_head_distortion_table := fun _ _ => 1 / 2
  alignment_table := fun _ _ _ _ => 1 / 2
  src_classes := []
  trg_classes := []

/-- Candidate with a fertility-3 source word for the claim C2
counterexample. -/
def claim2cai : AlignmentInfo where
  src_sentence := [none, some 1]
  trg_sentence := [0, 5, 5, 5]
  alignment := [0, 1, 1, 1]

/-- Counterexample to claim C2 as stated: even with every fertility-table
entry a probability (at most 1), the fertility factor multiplied into the
running product is `3! * 1 = 6 > 1`, so the running product is not
non-increasing across the four factors. -/
theorem claim2_counterexample :
    (∀ (f : ℕ) (s : Option Word),
      0 ≤ claim2cmd.fertility_table f s ∧ claim2cmd.fertility_table f s ≤ 1) ∧
    1 < fertility_term claim2cmd claim2cai := by
  constructor
  · intro f s
    constructor
    · norm_num [claim2cmd]
    · norm_num [claim2cmd]
  · rw [fertility_term]
    norm_num [List.range', fertility_loop, MIN_PROB, Nat.factorial,
      show claim2cai.src_sentence.length = 2 from rfl,
      show AlignmentInfo.fertility_of_i claim2cai 1 = 3 from by decide,
      show ∀ x, claim2cmd.fertility_table 3 x = 1 from fun _ => rfl]

/-- Evaluation of the full factor product at the claim C10 example, used
to witness claim C2. -/
lemma claim2w_full : score_factors_product claim10md claim10ai = some (1 / 16) := by
  rw [score_factors_product, claim10_ngt,
    show List.range' 1 (claim10ai.trg_sentence.length - 1) = [1] from rfl,
    show List.mapM (distortion_term claim10md claim10ai) [1] = some [1 / 2] from by
      rw [List.mapM_cons, claim10_dist, List.mapM_nil]
      rfl]
  norm_num [claim10_ft, lexical_translation_term,
    show ∀ a b, claim10md.translation_table a b = 1 / 2 from fun _ _ => rfl]

/-- Witness for claim C2 at a concrete candidate where no abort fires. -/
theorem claim2_witness :
    (1 / 16 : ℚ) = 1 / 16 ∨ ((1 / 16 : ℚ) = MIN_PROB ∧ (1 / 16 : ℚ) < MIN_PROB) :=
  claim2_early_abort_safe claim10md claim10ai (1 / 16) (1 / 16)
    (fun _ _ => ⟨by norm_num [claim10md], by norm_num [claim10md]⟩)
    (fun _ _ _ => ⟨by norm_num [claim10md], by norm_num [claim10md]⟩)
    (fun _ _ => ⟨by norm_num [claim10md], by norm_num [claim10md]⟩)
    (fun _ _ => by norm_num [claim10md])
    claim10_eval claim2w_full

/-- Claim C8: processing one sampled candidate with normalized weight
`w = count / total` adds exactly `n * w` to the `p1` count and
`(m - 2n) * w` to the `p0` count, where `n` is the number of target
positions of that candidate aligned to NULL; the per-candidate NULL
counter is reset before the candidate, so the final counter equals `n`
regardless of its value beforehand. -/
theorem claim8_null_generation_counts (md : Model) (m : ℕ) (total : ℚ)
    (cts : Counts) (ai : AlignmentInfo) (cts' : Counts)
    (hm : ai.trg_sentence.length = m + 1)
    (h : process_candidate md m total cts ai = some cts') :
    ∀ count, prob_t_a_given_s md ai = some count →
      cts'.p1 = cts.p1 +
        (((List.range' 1 m).countP fun j => decide (ai.alignOf j = 0)) : ℚ)
          * (count / total) ∧
      cts'.p0 = cts.p0 +
        ((m : ℚ) - 2 * (((List.range' 1 m).countP fun j => decide (ai.alignOf j = 0)) : ℚ))
          * (count / total) ∧
      cts'.null = (List.range' 1 m).countP fun j => decide (ai.alignOf j = 0) := by
  intro count hcount
  rw [process_candidate] at h
  rw [hcount] at h
  have h2 : ((List.range' 1 m).foldlM (fun c j =>
      Counts.update_distortion (Counts.update_lexical_translation c (count / total) ai j)
        (count / total) ai j md.src_classes md.trg_classes)
      { cts with null := 0 }).bind
      (fun cts1 => some (Counts.update_fertility
        (Counts.update_null_generation cts1 (count / total) ai) (count / total) ai))
      = some cts' := h
  clear h
  cases hf : (List.range' 1 m).foldlM (fun c j =>
      Counts.update_distortion (Counts.update_lexical_translation c (count / total) ai j)
        (count / total) ai j md.src_classes md.trg_classes) { cts with null := 0 } with
  | none => rw [hf] at h2; simp at h2
  | some c1 =>
    rw [hf] at h2
    have hc' : Counts.update_fertility
        (Counts.update_null_generation c1 (count / total) ai) (count / total) ai
        = cts' := by
      simpa using h2
    obtain ⟨hq0, hq1, hqn⟩ := estep_fold_proj md ai (count / total) (List.range' 1 m)
      { cts with null := 0 } c1 hf
    have hn0 : ({ cts with null := 0 } : Counts).null = 0 := rfl
    have hp00 : ({ cts with null := 0 } : Counts).p0 = cts.p0 := rfl
    have hp10 : ({ cts with null := 0 } : Counts).p1 = cts.p1 := rfl
    have hfert := update_fertility_proj
      (Counts.update_null_generation c1 (count / total) ai) (count / total) ai
    have hnull := update_null_generation_proj c1 (count / total) ai
    have hcn : c1.null = (List.range' 1 m).countP fun j => decide (ai.alignOf j = 0) := by
      rw [hqn, hn0]; omega
    refine ⟨?_, ?_, ?_⟩
    · rw [← hc', hfert.2.1, hnull.1, hq1, hp10, hcn]
    · rw [← hc', hfert.1, hnull.2.1, hq0, hp00, hcn, hm]
      push_cast
      ring
    · rw [← hc', hfert.2.2, hnull.2.2, hcn]

/-- Witness for claim C8: processing the claim C10 candidate (no
NULL-aligned position, weight 1) leaves `p1` at 0, sets the `p0` count to
1, and ends with a zero NULL counter. -/
theorem claim8_witness :
    (process_candidate claim10md 1 (1 / 16) Counts.initial claim10ai).map Counts.p1
      = some 0 ∧
    (process_candidate claim10md 1 (1 / 16) Counts.initial claim10ai).map Counts.p0
      = some 1 ∧
    (process_candidate claim10md 1 (1 / 16) Counts.initial claim10ai).map Counts.null
      = some 0 := by
  obtain ⟨c, hc⟩ : ∃ c, process_candidate claim10md 1 (1 / 16) Counts.initial claim10ai
      = some c := by
    rw [process_candidate, claim10_eval]
    exact ⟨_, rfl⟩
  obtain ⟨hp1, hp0, hnull⟩ := claim8_null_generation_counts claim10md 1 (1 / 16)
    Counts.initial claim10ai c rfl hc (1 / 16) claim10_eval
  have hcp : ((List.range' 1 1).countP fun j => decide (claim10ai.alignOf j = 0)) = 0 := by
    decide
  rw [hc]
  refine ⟨?_, ?_, ?_⟩
  · rw [Option.map_some', hp1, hcp]
    norm_num [Counts.initial]
  · rw [Option.map_some', hp0, hcp]
    norm_num [Counts.initial]
  · rw [Option.map_some', hnull, hcp]

end IBM4
